import Mathlib

/-!
# koykov/tcp-serv: connection wrapper and server

A shallow embedding of `conn.go` and `server.go`.

* The transport (`net.Conn`) is a state record `Sock`: the bytes the peer has
  sent and that were not read yet, the bytes written to the peer, the armed
  deadline, and a script that fixes how the transport answers each successive
  call (how many bytes it hands over, which error it reports).  Quantifying
  over the record quantifies over every behaviour of the transport.
* `time.Now()` is an explicit argument.
* The Go standard library pieces the code is composed with (`io.LimitReader`,
  `bufio.Reader`, `bufio.Writer`, `bytes.Trim`) are transcribed from the
  standard library.
* Goroutines are interleaved at the granularity of one loop iteration; the
  race of the `select` is an input of the iteration.
-/

namespace TcpServ

/-! ## Bytes, errors, the transport -/

/-- One octet of payload. -/
abbrev Byte := UInt8

/-- Go `error` values that occur; `none : Option Error` is `nil`. -/
inductive Error where
  | EOF
  | ErrShortWrite
  | net (code : Nat)
  deriving DecidableEq, Repr

/-- How the transport answers one call: a byte count and an error. -/
structure Fate where
  n : Nat
  err : Option Error
  deriving DecidableEq, Repr

/-- A call made on the transport (ghost record of what was invoked). -/
inductive Call where
  | read (len : Nat)
  | write (p : List Byte)
  | setDeadline (t : Int)
  | close
  deriving DecidableEq, Repr

/-- State of a `net.Conn`. -/
structure Sock where
  /-- bytes sent by the peer, not read yet -/
  inbox : List Byte
  /-- bytes written to the peer so far -/
  outbox : List Byte
  /-- deadline armed by the last successful `SetDeadline` -/
  deadline : Option Int
  closed : Bool
  /-- answers of the transport to the calls still to come, one per call -/
  script : List Fate
  /-- calls received so far, oldest first -/
  calls : List Call
  deriving DecidableEq, Repr

/-- Result of a `Read(p)`: `(n, err)`, the slice `p` afterwards, the receiver afterwards. -/
structure ReadRes (σ : Type) where
  n : Nat
  err : Option Error
  p : List Byte
  self : σ
  deriving DecidableEq, Repr

/-- Result of a `Write(p)`: `(n, err)` and the receiver afterwards. -/
structure WriteRes (σ : Type) where
  n : Nat
  err : Option Error
  self : σ
  deriving DecidableEq, Repr

/-- The answer of the transport to a read of `k` bytes.  With the script used up
the transport hands over what it has, and reports `EOF` when it has nothing. -/
def Sock.readFate (s : Sock) (k : Nat) : Fate :=
  match s.script with
  | [] => ⟨k, if s.inbox = [] then some Error.EOF else none⟩
  | f :: _ => f

/-- The `net.Conn` method `Read(p)`: at most `len(p)` bytes of the stream are stored at the front of `p`. -/
def Sock.Read (s : Sock) (p : List Byte) : ReadRes Sock :=
  let f := s.readFate p.length
  let n := min f.n (min p.length s.inbox.length)
  { n := n
    err := f.err
    p := s.inbox.take n ++ p.drop n
    self := { s with inbox := s.inbox.drop n, script := s.script.tail,
                     calls := s.calls ++ [Call.read p.length] } }

/-- The `net.Conn` method `Write(p)`: all of `p` is sent, or a front part of it and an error is reported. -/
def Sock.Write (s : Sock) (p : List Byte) : WriteRes Sock :=
  let n := match s.script with
    | ⟨k, some _⟩ :: _ => min k p.length
    | _ => p.length
  let err := match s.script with
    | ⟨_, some e⟩ :: _ => some e
    | _ => none
  { n := n
    err := err
    self := { s with outbox := s.outbox ++ p.take n, script := s.script.tail,
                     calls := s.calls ++ [Call.write p] } }

/-- The `net.Conn` method `SetDeadline(t)`: arms the deadline unless the transport reports an error. -/
def Sock.SetDeadline (s : Sock) (t : Int) : Option Error × Sock :=
  let err := match s.script with
    | f :: _ => f.err
    | [] => none
  (err, { s with deadline := if err = none then some t else s.deadline,
                 script := s.script.tail,
                 calls := s.calls ++ [Call.setDeadline t] })

/-- The `net.Conn` method `Close()`. -/
def Sock.Close (s : Sock) : Option Error × Sock :=
  let err := match s.script with
    | f :: _ => f.err
    | [] => none
  (err, { s with closed := true, script := s.script.tail, calls := s.calls ++ [Call.close] })

/-! ## io.LimitReader -/

/-- Go `io.LimitedReader` over a transport: `R` and the remaining budget `N`. -/
structure LimitedReader where
  R : Sock
  N : Int
  deriving DecidableEq, Repr

/-- Go `(*io.LimitedReader).Read`. -/
def LimitedReader.Read (l : LimitedReader) (p : List Byte) : ReadRes LimitedReader :=
  if l.N ≤ 0 then
    { n := 0, err := some Error.EOF, p := p, self := l }
  else
    let q := if (p.length : Int) > l.N then p.take l.N.toNat else p
    let r := l.R.Read q
    { n := r.n
      err := r.err
      p := r.p ++ p.drop q.length
      self := { R := r.self, N := l.N - r.n } }

/-! ## conn.go -/

/-- Wrapper over TCP connection with support of idle timeout and incoming data limit. -/
structure Conn where
  /-- the embedded `net.Conn` -/
  netConn : Sock
  idleTimeout : Int
  bytesLimit : Int
  deriving DecidableEq, Repr

/-- The constructor; `now` is `time.Now()`.  The result of `SetDeadline` is discarded. -/
def NewConn (raw : Sock) (idleTimeout : Int) (bytesLimit : Int) (now : Int) : Conn :=
  let conn : Conn := { netConn := raw, idleTimeout := idleTimeout, bytesLimit := bytesLimit }
  let r := conn.netConn.SetDeadline (now + conn.idleTimeout)
  { conn with netConn := r.2 }

/-- Update timeout value. -/
def Conn.updateTimeout (c : Conn) (now : Int) : Option Error × Conn :=
  let idleDeadline := now + c.idleTimeout
  let r := c.netConn.SetDeadline idleDeadline
  (r.1, { c with netConn := r.2 })

/-- Write data to connection. -/
def Conn.Write (c : Conn) (now : Int) (p : List Byte) : WriteRes Conn :=
  match c.updateTimeout now with
  | (some e, c1) => { n := 0, err := some e, self := c1 }
  | (none, c1) =>
    let r := c1.netConn.Write p
    { n := r.n, err := r.err, self := { c1 with netConn := r.self } }

/-- Read data from connection. -/
def Conn.Read (c : Conn) (now : Int) (b : List Byte) : ReadRes Conn :=
  match c.updateTimeout now with
  | (some e, c1) => { n := 0, err := some e, p := b, self := c1 }
  | (none, c1) =>
    let r := LimitedReader.Read { R := c1.netConn, N := c1.bytesLimit } b
    { n := r.n, err := r.err, p := r.p, self := { c1 with netConn := r.self.R } }

/-- Close the connection. -/
def Conn.Close (c : Conn) : Option Error × Conn :=
  let r := c.netConn.Close
  (r.1, { c with netConn := r.2 })

/-! ## bytes.Trim -/

/-- Go `bytes.trimRightByte`: drop the bytes equal to `c` at the end. -/
def bytes.trimRightByte (s : List Byte) (c : Byte) : List Byte :=
  s.rdropWhile (fun x => x == c)

/-- Go `bytes.trimLeftByte`: drop the bytes equal to `c` at the front. -/
def bytes.trimLeftByte (s : List Byte) (c : Byte) : List Byte :=
  s.dropWhile (fun x => x == c)

/-- Go `bytes.Trim(s, cutset)` for a cutset of one ASCII byte `c`, the form `server.go` calls
with the cutset "\x00".  A nil result is the empty list. -/
def bytes.Trim (s : List Byte) (c : Byte) : List Byte :=
  if s.length = 0 then []
  else bytes.trimLeftByte (bytes.trimRightByte s c) c

/-- Go builtin `copy(dst, src)`: the number of bytes copied and `dst` afterwards. -/
def copy (dst src : List Byte) : Nat × List Byte :=
  let n := min dst.length src.length
  (n, src.take n ++ dst.drop n)

/-! ## bufio.Reader and bufio.Writer over a Conn -/

/-- Go `bufio.defaultBufSize`. -/
@[irreducible]
def defaultBufSize : Nat := 4096

/-- Go `bufio.Reader`: the array `buf` and the read and write positions in it.  The reader
`rd` it wraps is the connection, which is passed to `Read`. -/
structure Reader where
  buf : List Byte
  r : Nat
  w : Nat
  err : Option Error
  deriving DecidableEq, Repr

/-- Go `bufio.NewReader`. -/
def NewReader : Reader :=
  { buf := List.replicate defaultBufSize 0, r := 0, w := 0, err := none }

/-- The tail of `(*bufio.Reader).Read`: copy as much as we can. -/
def Reader.copyOut (b : Reader) (rd : Conn) (p : List Byte) : ReadRes (Reader × Conn) :=
  let c := copy p ((b.buf.take b.w).drop b.r)
  { n := c.1, err := none, p := c.2, self := ({ b with r := b.r + c.1 }, rd) }

/-- Go `(*bufio.Reader).Read` with `rd` the connection; `now` is the time the connection sees
if it is read. -/
def Reader.Read (b : Reader) (rd : Conn) (now : Int) (p : List Byte) : ReadRes (Reader × Conn) :=
  if p.length = 0 then
    if b.w - b.r > 0 then { n := 0, err := none, p := p, self := (b, rd) }
    else { n := 0, err := b.err, p := p, self := ({ b with err := none }, rd) }
  else if b.r = b.w then
    if b.err ≠ none then
      { n := 0, err := b.err, p := p, self := ({ b with err := none }, rd) }
    else if p.length ≥ b.buf.length then
      -- Large read, empty buffer: read directly into p.
      let x := rd.Read now p
      { n := x.n, err := x.err, p := x.p, self := ({ b with err := none }, x.self) }
    else
      -- One read.
      let x := rd.Read now b.buf
      let b1 : Reader := { buf := x.p, r := 0, w := 0, err := x.err }
      if x.n = 0 then
        { n := 0, err := b1.err, p := p, self := ({ b1 with err := none }, x.self) }
      else
        Reader.copyOut { b1 with w := b1.w + x.n } x.self p
  else
    Reader.copyOut b rd p

/-- Go `bufio.Writer`: the array `buf`, the number `n` of buffered bytes, the sticky error. -/
structure Writer where
  buf : List Byte
  n : Nat
  err : Option Error
  deriving DecidableEq, Repr

/-- Go `bufio.NewWriter`. -/
def NewWriter : Writer :=
  { buf := List.replicate defaultBufSize 0, n := 0, err := none }

/-- Go `(*bufio.Writer).Available`. -/
def Writer.Available (b : Writer) : Nat := b.buf.length - b.n

/-- Go `(*bufio.Writer).Buffered`. -/
def Writer.Buffered (b : Writer) : Nat := b.n

/-- Go `(*bufio.Writer).Flush` with `wr` the connection. -/
def Writer.Flush (b : Writer) (wr : Conn) (now : Int) : Option Error × Writer × Conn :=
  if b.err ≠ none then (b.err, b, wr)
  else if b.n = 0 then (none, b, wr)
  else
    let x := wr.Write now (b.buf.take b.n)
    let err := if x.n < b.n ∧ x.err = none then some Error.ErrShortWrite else x.err
    if err ≠ none then
      let buf1 :=
        if x.n > 0 ∧ x.n < b.n then
          (copy (b.buf.take (b.n - x.n)) ((b.buf.take b.n).drop x.n)).2 ++ b.buf.drop (b.n - x.n)
        else b.buf
      (err, { buf := buf1, n := b.n - x.n, err := err }, x.self)
    else
      (none, { b with n := 0 }, x.self)

/-- The `for len(p) > b.Available() && b.err == nil` loop of `(*bufio.Writer).Write`, run for
at most `fuel` rounds: the rest of `p`, the count `nn`, the writer and the connection. -/
def Writer.writeLoop (now : Int) :
    Nat → List Byte → Nat → Writer → Conn → List Byte × Nat × Writer × Conn
  | 0, p, nn, b, wr => (p, nn, b, wr)
  | fuel + 1, p, nn, b, wr =>
    if p.length > b.Available ∧ b.err = none then
      if b.Buffered = 0 then
        -- Large write, empty buffer: write directly from p.
        let x := wr.Write now p
        Writer.writeLoop now fuel (p.drop x.n) (nn + x.n) { b with err := x.err } x.self
      else
        let c := copy (b.buf.drop b.n) p
        let b1 : Writer := { b with buf := b.buf.take b.n ++ c.2, n := b.n + c.1 }
        let f := b1.Flush wr now
        Writer.writeLoop now fuel (p.drop c.1) (nn + c.1) f.2.1 f.2.2
    else (p, nn, b, wr)

/-- Go `(*bufio.Writer).Write` with `wr` the connection.  Two rounds of the loop always
reach its exit (`Writer_writeLoop_exit`). -/
def Writer.Write (b : Writer) (wr : Conn) (now : Int) (p : List Byte) : WriteRes (Writer × Conn) :=
  let l := Writer.writeLoop now 2 p 0 b wr
  let p1 := l.1
  let nn := l.2.1
  let b1 := l.2.2.1
  if b1.err ≠ none then
    { n := nn, err := b1.err, self := (b1, l.2.2.2) }
  else
    let c := copy (b1.buf.drop b1.n) p1
    { n := nn + c.1, err := none
      self := ({ b1 with buf := b1.buf.take b1.n ++ c.2, n := b1.n + c.1 }, l.2.2.2) }

/-! ## server.go: the per-connection goroutine -/

/-- Size of the read buffer. -/
@[irreducible]
def BufSize : Nat := 1024

/-- A Handler responds to TCP request: `Handle([]byte) ([]byte, error)`. -/
abbrev Handler := List Byte → List Byte × Option Error

/-- What a goroutine did that is not visible on the transport (ghost record). -/
inductive Event where
  /-- `s.Log(err)` -/
  | log (e : Error)
  /-- `h.Handle(buf)` was called -/
  | handle (buf : List Byte)
  /-- `s.Log("connection closed")` -/
  | logClosed
  deriving DecidableEq, Repr

/-- The variables of the goroutine `go func(conn *Conn)`. -/
structure Task where
  conn : Conn
  r : Reader
  w : Writer
  trace : List Event
  deriving DecidableEq, Repr

/-- The goroutine at its start: `r := bufio.NewReader(conn)`, `w := bufio.NewWriter(conn)`. -/
def Task.start (conn : Conn) : Task :=
  { conn := conn, r := NewReader, w := NewWriter, trace := [] }

/-- What the scheduler and the clock give to one iteration of the loop. -/
structure Tick where
  /-- the `select` takes `case <-timeout` -/
  timerFirst : Bool
  /-- `time.Now()` when the connection is read -/
  tRead : Int
  /-- `time.Now()` during `w.Write` -/
  tWrite : Int
  /-- `time.Now()` during `w.Flush` -/
  tFlush : Int

/-- Record `s.Log(err)` when `err != nil`. -/
def logIf (err : Option Error) (trace : List Event) : List Event :=
  match err with
  | some e => trace ++ [Event.log e]
  | none => trace

/-- The reading goroutine `go func(cbuf chan []byte, r *bufio.Reader)`: the buffer it sends
on `cbuf`, and the state afterwards. -/
def readTask (t : Task) (now : Int) : List Byte × Task :=
  let buf := List.replicate BufSize (0 : Byte)
  let x := t.r.Read t.conn now buf
  let buf := bytes.Trim x.p 0
  (buf, { t with r := x.self.1, conn := x.self.2, trace := logIf x.err t.trace })

/-- How one iteration of the loop ends. -/
inductive Step where
  /-- the loop goes round again -/
  | next (t : Task)
  /-- the goroutine returns -/
  | ret (t : Task)
  deriving DecidableEq, Repr

/-- One iteration of `for { ... select ... }`.  When the timer wins the race the reading
goroutine is abandoned and what it does is not observed. -/
def loopBody (h : Handler) (tk : Tick) (t : Task) : Step :=
  if tk.timerFirst then
    -- Oops, we caught a timeout.
    Step.ret t
  else
    let rd := readTask t tk.tRead
    let buf := rd.1
    let t1 := rd.2
    let res := h buf
    let t2 := { t1 with trace := t1.trace ++ [Event.handle buf] }
    match res.2 with
    | some e => Step.ret { t2 with trace := t2.trace ++ [Event.log e] }
    | none =>
      -- Write response to connection.
      let x := t2.w.Write t2.conn tk.tWrite res.1
      let t3 := { t2 with w := x.self.1, conn := x.self.2 }
      match x.err with
      | some e => Step.ret { t3 with trace := t3.trace ++ [Event.log e] }
      | none =>
        -- Flush the connection.
        let f := t3.w.Flush t3.conn tk.tFlush
        Step.next { t3 with w := f.2.1, conn := f.2.2, trace := logIf f.1 t3.trace }

/-! ## server.go: the server -/

/-- A Go `map[*Conn]bool`; a `*Conn` is its address. -/
abbrev ConnMap := List (Nat × Bool)

/-- Go `m[k] = v`. -/
def ConnMap.set (m : ConnMap) (k : Nat) (v : Bool) : ConnMap :=
  (k, v) :: m.filter (fun e => e.1 != k)

/-- Go `delete(m, k)`. -/
def ConnMap.delete (m : ConnMap) (k : Nat) : ConnMap :=
  m.filter (fun e => e.1 != k)

/-- Go `m[k]` with the presence flag: `none` when the key is absent. -/
def ConnMap.get (m : ConnMap) (k : Nat) : Option Bool :=
  m.lookup k

/-- TCP server. -/
structure Server where
  addr : String
  idleTimeout : Int
  bytesLimit : Int
  /-- the listener is open -/
  listening : Bool
  connections : ConnMap
  stop : Bool
  deriving DecidableEq, Repr

/-- The constructor. -/
def NewServer (address : String) (idleTimeout : Int) (bytesLimit : Int) : Server :=
  { addr := address, idleTimeout := idleTimeout, bytesLimit := bytesLimit,
    listening := false, connections := [], stop := false }

/-- Add new connection to the list. -/
def Server.addConn (s : Server) (conn : Nat) : Server :=
  { s with connections := s.connections.set conn true }

/-- Close connection: `conn` is the address, `c` the value it points to. -/
def Server.closeConn (s : Server) (conn : Nat) (c : Conn) : Server × Conn :=
  let r := c.Close
  ({ s with connections := s.connections.delete conn }, r.2)

/-- A connection goroutine: running with its variables, or returned. -/
inductive Goroutine where
  | running (t : Task)
  | exited (t : Task)
  deriving DecidableEq, Repr

/-- Where the call of `ListenAndServe` stands; `err` is its named result. -/
inductive Pc where
  | idle
  | serving (err : Option Error)
  | returned (err : Option Error)
  deriving DecidableEq, Repr

/-- The server together with its goroutines. -/
structure System where
  s : Server
  pc : Pc
  /-- the connection goroutines, by the address of their `*Conn` -/
  goroutines : List (Nat × Goroutine)
  /-- the address the next `&conn` gets -/
  fresh : Nat
  /-- `Shutdown` has returned -/
  drained : Bool
  deriving DecidableEq, Repr

/-- The system before `ListenAndServe` is called. -/
def System.init (s : Server) : System :=
  { s := s, pc := Pc.idle, goroutines := [], fresh := 0, drained := false }

/-- The goroutine of the connection at address `conn`. -/
def System.goroutine (sys : System) (conn : Nat) : Option Goroutine :=
  sys.goroutines.lookup conn

/-- The opening of `ListenAndServe`: `s.listener, err = net.Listen("tcp", s.addr)`, where
`listenErr` is the error `net.Listen` gives. -/
def ListenAndServe.listen (sys : System) (listenErr : Option Error) : System :=
  match sys.pc with
  | Pc.idle =>
    let err := listenErr
    if err ≠ none then { sys with pc := Pc.returned err }
    else { sys with s := { sys.s with listening := true }, pc := Pc.serving err }
  | _ => sys

/-- One iteration of the accept loop of `ListenAndServe`; `acc` is what `Accept` gives and
`now` the time `NewConn` sees.  The `err` of `connRaw, err := s.listener.Accept()` is a new
variable of the loop body, and it is that variable the goroutine assigns `io.EOF` to: the
named result `err` is not assigned in the loop. -/
def ListenAndServe.loop (sys : System) (acc : Except Error Sock) (now : Int) : System :=
  match sys.pc with
  | Pc.serving err =>
    if sys.s.stop then
      -- break; return; the deferred function closes the listener
      { sys with s := { sys.s with listening := false }, pc := Pc.returned err }
    else
      match acc with
      | Except.error _ => sys
      | Except.ok connRaw =>
        let conn := NewConn connRaw sys.s.idleTimeout sys.s.bytesLimit now
        { sys with s := sys.s.addConn sys.fresh
                   goroutines := (sys.fresh, Goroutine.running (Task.start conn)) :: sys.goroutines
                   fresh := sys.fresh + 1 }
  | _ => sys

/-- One iteration of the goroutine of the connection at address `conn`; when the goroutine
returns, its deferred function runs `s.closeConn(conn)` and logs. -/
def System.tick (h : Handler) (sys : System) (conn : Nat) (tk : Tick) : System :=
  match sys.goroutine conn with
  | some (Goroutine.running t) =>
    match loopBody h tk t with
    | Step.next t1 =>
      { sys with goroutines := (conn, Goroutine.running t1) :: sys.goroutines }
    | Step.ret t1 =>
      let r := sys.s.closeConn conn t1.conn
      { sys with s := r.1
                 goroutines := (conn, Goroutine.exited
                   { t1 with conn := r.2, trace := t1.trace ++ [Event.logClosed] }) :: sys.goroutines }
  | _ => sys

/-- The opening of `Shutdown`: set the stop flag and close the listener. -/
def Shutdown.begin (sys : System) : System :=
  { sys with s := { sys.s with stop := true, listening := false } }

/-- One tick of the ticker in `Shutdown`: return when no connection is left. -/
def Shutdown.poll (sys : System) : System :=
  if sys.s.stop ∧ sys.s.connections.length = 0 then { sys with drained := true } else sys

/-- What can happen next in the system. -/
inductive SysEvent where
  | listen (listenErr : Option Error)
  | loop (acc : Except Error Sock) (now : Int)
  | tick (conn : Nat) (tk : Tick)
  | shutdown
  | poll

/-- One event. -/
def System.step (h : Handler) (sys : System) : SysEvent → System
  | SysEvent.listen e => ListenAndServe.listen sys e
  | SysEvent.loop acc now => ListenAndServe.loop sys acc now
  | SysEvent.tick conn tk => sys.tick h conn tk
  | SysEvent.shutdown => Shutdown.begin sys
  | SysEvent.poll => Shutdown.poll sys

/-- A run: the events in order. -/
def System.run (h : Handler) (sys : System) (evs : List SysEvent) : System :=
  evs.foldl (System.step h) sys

/-- The task a step ends with. -/
def Step.task : Step → Task
  | Step.next t => t
  | Step.ret t => t

/-- The handler of `example/main.go`: answers "you said: " followed by the data. -/
def EchoHandler : Handler :=
  fun data => ([121, 111, 117, 32, 115, 97, 105, 100, 58, 32] ++ data, none)

/-! ## Predicates used in the statements -/

/-- The task of a goroutine, running or returned. -/
def Goroutine.task : Goroutine → Task
  | Goroutine.running t => t
  | Goroutine.exited t => t

/-- The goroutine respects the limit `lim`: its connection carries it, its reader buffers no
more than `lim` bytes, and every message given to the handler so far is no longer. -/
def Task.Bounded (lim : Int) (t : Task) : Prop :=
  t.conn.bytesLimit = lim ∧ ((t.r.w - t.r.r : Nat) : Int) ≤ lim ∧
  ∀ msg : List Byte, Event.handle msg ∈ t.trace → (msg.length : Int) ≤ lim

/-- Whether the goroutine found at an address is running. -/
def Goroutine.isRunning : Option Goroutine → Bool
  | some (Goroutine.running _) => true
  | _ => false

/-- The registry invariant: addresses not handed out yet have no goroutine; the registry
holds exactly the addresses whose goroutine is running; the deferred function of a running
goroutine has not run; the deferred function of a returned goroutine has run once and its
connection is closed. -/
def System.Inv (sys : System) : Prop :=
  (∀ a : Nat, sys.fresh ≤ a → sys.goroutine a = none) ∧
  (∀ a : Nat, sys.s.connections.get a =
    if Goroutine.isRunning (sys.goroutine a) then some true else none) ∧
  (∀ (a : Nat) (t : Task), sys.goroutine a = some (Goroutine.running t) →
    t.trace.count Event.logClosed = 0) ∧
  (∀ (a : Nat) (t : Task), sys.goroutine a = some (Goroutine.exited t) →
    t.conn.netConn.closed = true ∧ t.trace.count Event.logClosed = 1)

/-- Every goroutine of the system respects the limit `lim` of the server. -/
def System.Bounded (lim : Int) (sys : System) : Prop :=
  sys.s.bytesLimit = lim ∧ ∀ e ∈ sys.goroutines, e.2.task.Bounded lim

/-! ## Concrete inputs -/

/-- A connection with limit 3 whose peer has sent six bytes. -/
def sixBytes : Conn :=
  { netConn := { inbox := [1, 2, 3, 4, 5, 6], outbox := [], deadline := none, closed := false,
                 script := [], calls := [] }
    idleTimeout := 5, bytesLimit := 3 }

/-- A connection whose transport answers the next call with an error. -/
def refusing : Conn :=
  { netConn := { inbox := [7, 8], outbox := [], deadline := none, closed := false,
                 script := [{ n := 0, err := some (Error.net 9) }], calls := [] }
    idleTimeout := 5, bytesLimit := 16 }

/-- A transport whose peer has sent the given bytes; it answers every call without error. -/
def peerSent (data : List Byte) : Sock :=
  { inbox := data, outbox := [], deadline := none, closed := false, script := [], calls := [] }

/-- The scheduler lets the read win the race; the clock reads 1, 2, 3. -/
def readFirst : Tick := { timerFirst := false, tRead := 1, tWrite := 2, tFlush := 3 }

/-- A connection with limit 1024 whose peer has sent a NUL byte and the letter A. -/
def nulFirst : Conn := NewConn (peerSent [0, 65]) 5 1024 100

/-- A connection with limit 1024 whose peer has sent "hello". -/
def helloConn : Conn := NewConn (peerSent [104, 101, 108, 108, 111]) 5 1024 100

/-- A connection with limit 1024 whose peer has sent nothing and has hung up: the transport
answers a read with zero bytes and `EOF`. -/
def hungUp : Conn := NewConn (peerSent []) 5 1024 100

/-- A handler that fails on every message. -/
def failing : Handler := fun _ => ([], some (Error.net 7))

/-- A system with one running goroutine, at address 0, with the variables `t`. -/
def oneTask (t : Task) : System :=
  { s := (NewServer ":9000" 5 1024).addConn 0
    pc := Pc.serving none
    goroutines := [(0, Goroutine.running t)]
    fresh := 1
    drained := false }

/-- A goroutine on the connection `helloConn` whose writer carries the error of an earlier
flush that failed. -/
def stuckWriter : Task :=
  { conn := helloConn, r := NewReader, w := { NewWriter with err := some (Error.net 3) },
    trace := [] }

/-- A burst of 2000 bytes, each the letter A. -/
def burst : List Byte := List.replicate 2000 65

/-- A server with limit 1024 accepts a connection on which the peer has sent the burst, and
the goroutine of the connection runs one iteration. -/
def burstRun : List SysEvent :=
  [SysEvent.listen none, SysEvent.loop (Except.ok (peerSent burst)) 0, SysEvent.tick 0 readFirst]

/-- The server binds, accepts one connection, `Shutdown` is called, and the accept loop comes
round to its test of the stop flag. -/
def shutdownRun : List SysEvent :=
  [SysEvent.listen none, SysEvent.loop (Except.ok (peerSent [104, 105])) 0, SysEvent.shutdown,
   SysEvent.loop (Except.error (Error.net 1)) 1]

/-- A connection with limit 1024 whose peer has sent "hello" and whose transport answers the
fifth call, the write of the flushed answer, with an error. -/
def brokenPipe : Conn :=
  NewConn { peerSent [104, 101, 108, 108, 111] with
            script := [⟨0, none⟩, ⟨0, none⟩, ⟨1024, none⟩, ⟨0, none⟩, ⟨0, some (Error.net 4)⟩] }
    5 1024 100

/-! ## Theorems -/

/-! ### Lists -/

theorem drop_take_append_drop {α : Type} (p : List α) (k n : Nat) (h : n ≤ k) :
    (p.take k).drop n ++ p.drop k = p.drop n := by
  induction p generalizing k n with
  | nil => simp
  | cons a p ih =>
    cases k with
    | zero => simp at h; subst h; simp
    | succ k =>
      cases n with
      | zero => simp
      | succ n => simpa using ih k n (by omega)

/-! ### The transport and the limiter -/

theorem Sock_Read_n_le (s : Sock) (p : List Byte) :
    (s.Read p).n ≤ p.length ∧ (s.Read p).n ≤ s.inbox.length := by
  simp only [Sock.Read]
  omega

theorem Sock_Read_p (s : Sock) (p : List Byte) :
    (s.Read p).p = s.inbox.take (s.Read p).n ++ p.drop (s.Read p).n := rfl

theorem Sock_Read_p_length (s : Sock) (p : List Byte) : (s.Read p).p.length = p.length := by
  have h := Sock_Read_n_le s p
  rw [Sock_Read_p]
  simp only [List.length_append, List.length_take, List.length_drop]
  omega

theorem LimitedReader_Read_n_le (l : LimitedReader) (p : List Byte) :
    (l.Read p).n ≤ p.length ∧ (0 ≤ l.N → ((l.Read p).n : Int) ≤ l.N) := by
  unfold LimitedReader.Read
  by_cases hN : l.N ≤ 0
  · simp only [hN, if_true]
    exact ⟨Nat.zero_le _, fun h => by simpa using h⟩
  · simp only [hN, if_false]
    by_cases hp : (p.length : Int) > l.N
    · simp only [hp, if_true]
      have h := (Sock_Read_n_le l.R (p.take l.N.toNat)).1
      rw [List.length_take] at h
      constructor
      · omega
      · intro _; omega
    · simp only [hp, if_false]
      have h := (Sock_Read_n_le l.R p).1
      constructor
      · exact h
      · intro _; omega

/-- The slice after a limited read: `n` bytes at the front, the rest of `p` untouched. -/
theorem LimitedReader_Read_p (l : LimitedReader) (p : List Byte) :
    ∃ d : List Byte, d.length = (l.Read p).n ∧ (l.Read p).p = d ++ p.drop (l.Read p).n := by
  unfold LimitedReader.Read
  by_cases hN : l.N ≤ 0
  · simp only [hN, if_true]
    exact ⟨[], rfl, by simp⟩
  · simp only [hN, if_false]
    generalize hq : (if (p.length : Int) > l.N then p.take l.N.toNat else p) = q
    have hqp : ∃ k, k ≤ p.length ∧ q = p.take k := by
      by_cases hp : (p.length : Int) > l.N
      · exact ⟨l.N.toNat, by omega, by simp [← hq, hp]⟩
      · exact ⟨p.length, le_refl _, by simp [← hq, hp]⟩
    obtain ⟨k, hkp, hk⟩ := hqp
    have hn := Sock_Read_n_le l.R q
    have hql : q.length = k := by rw [hk, List.length_take]; omega
    refine ⟨l.R.inbox.take (l.R.Read q).n, ?_, ?_⟩
    · simp only [List.length_take]; omega
    · show (l.R.Read q).p ++ p.drop q.length = _
      rw [Sock_Read_p, List.append_assoc, hql]
      congr 1
      have hle : (l.R.Read q).n ≤ k := hql ▸ hn.1
      rw [hk] at hle ⊢
      exact drop_take_append_drop p k _ hle

/-! ### conn.go -/

theorem Conn_Read_of_fail (c : Conn) (now : Int) (b : List Byte) (e : Error)
    (h : (c.netConn.SetDeadline (now + c.idleTimeout)).1 = some e) :
    c.Read now b = { n := 0, err := some e, p := b, self := (c.updateTimeout now).2 } := by
  simp only [Conn.Read, Conn.updateTimeout, h]

theorem Conn_Read_of_ok (c : Conn) (now : Int) (b : List Byte)
    (h : (c.netConn.SetDeadline (now + c.idleTimeout)).1 = none) :
    c.Read now b =
      { n := (LimitedReader.Read ⟨(c.updateTimeout now).2.netConn, c.bytesLimit⟩ b).n
        err := (LimitedReader.Read ⟨(c.updateTimeout now).2.netConn, c.bytesLimit⟩ b).err
        p := (LimitedReader.Read ⟨(c.updateTimeout now).2.netConn, c.bytesLimit⟩ b).p
        self := { (c.updateTimeout now).2 with
          netConn := (LimitedReader.Read ⟨(c.updateTimeout now).2.netConn, c.bytesLimit⟩ b).self.R } } := by
  simp only [Conn.Read, Conn.updateTimeout, h]

theorem Conn_Write_of_fail (c : Conn) (now : Int) (p : List Byte) (e : Error)
    (h : (c.netConn.SetDeadline (now + c.idleTimeout)).1 = some e) :
    c.Write now p = { n := 0, err := some e, self := (c.updateTimeout now).2 } := by
  simp only [Conn.Write, Conn.updateTimeout, h]

theorem Conn_Write_of_ok (c : Conn) (now : Int) (p : List Byte)
    (h : (c.netConn.SetDeadline (now + c.idleTimeout)).1 = none) :
    c.Write now p =
      { n := ((c.updateTimeout now).2.netConn.Write p).n
        err := ((c.updateTimeout now).2.netConn.Write p).err
        self := { (c.updateTimeout now).2 with
          netConn := ((c.updateTimeout now).2.netConn.Write p).self } } := by
  simp only [Conn.Write, Conn.updateTimeout, h]

theorem Conn_Read_n_le (c : Conn) (now : Int) (b : List Byte) :
    (c.Read now b).n ≤ b.length ∧ (0 ≤ c.bytesLimit → ((c.Read now b).n : Int) ≤ c.bytesLimit) := by
  cases h : (c.netConn.SetDeadline (now + c.idleTimeout)).1 with
  | some e =>
    rw [Conn_Read_of_fail c now b e h]
    exact ⟨Nat.zero_le _, fun h0 => by simpa using h0⟩
  | none =>
    rw [Conn_Read_of_ok c now b h]
    exact LimitedReader_Read_n_le ⟨(c.updateTimeout now).2.netConn, c.bytesLimit⟩ b

theorem Conn_Read_p (c : Conn) (now : Int) (b : List Byte) :
    ∃ d : List Byte, d.length = (c.Read now b).n ∧ (c.Read now b).p = d ++ b.drop (c.Read now b).n := by
  cases h : (c.netConn.SetDeadline (now + c.idleTimeout)).1 with
  | some e =>
    rw [Conn_Read_of_fail c now b e h]
    exact ⟨[], rfl, by simp⟩
  | none =>
    rw [Conn_Read_of_ok c now b h]
    exact LimitedReader_Read_p ⟨(c.updateTimeout now).2.netConn, c.bytesLimit⟩ b

theorem Conn_Read_bytesLimit (c : Conn) (now : Int) (b : List Byte) :
    (c.Read now b).self.bytesLimit = c.bytesLimit ∧ (c.Read now b).self.idleTimeout = c.idleTimeout := by
  cases h : (c.netConn.SetDeadline (now + c.idleTimeout)).1 with
  | some e => rw [Conn_Read_of_fail c now b e h]; exact ⟨rfl, rfl⟩
  | none => rw [Conn_Read_of_ok c now b h]; exact ⟨rfl, rfl⟩

theorem Conn_Write_bytesLimit (c : Conn) (now : Int) (p : List Byte) :
    (c.Write now p).self.bytesLimit = c.bytesLimit ∧ (c.Write now p).self.idleTimeout = c.idleTimeout := by
  cases h : (c.netConn.SetDeadline (now + c.idleTimeout)).1 with
  | some e => rw [Conn_Write_of_fail c now p e h]; exact ⟨rfl, rfl⟩
  | none => rw [Conn_Write_of_ok c now p h]; exact ⟨rfl, rfl⟩

/-- When `Conn.Write` reports no error, all of `p` was written. -/
theorem Conn_Write_n_of_ok (c : Conn) (now : Int) (p : List Byte)
    (h : (c.Write now p).err = none) : (c.Write now p).n = p.length := by
  cases hd : (c.netConn.SetDeadline (now + c.idleTimeout)).1 with
  | some e => rw [Conn_Write_of_fail c now p e hd] at h; exact absurd h (by simp)
  | none =>
    rw [Conn_Write_of_ok c now p hd] at h ⊢
    simp only [Sock.Write] at h ⊢
    split at h
    · exact absurd h (by simp)
    · rfl

/-- C1: a `Conn.Read(b)` returns `n` with `n <= bytesLimit` and `n <= len(b)` whenever
`bytesLimit` is not negative (whether or not the rearm of the deadline succeeds); the call
leaves `bytesLimit` as it was, and a later call whose rearm succeeds is served by a new
limiter with the whole budget `bytesLimit`, whatever the earlier call returned. -/
theorem Conn_Read_capped_per_call (c : Conn) (now : Int) (b : List Byte)
    (hlim : 0 ≤ c.bytesLimit) :
    (((c.Read now b).n : Int) ≤ c.bytesLimit ∧ (c.Read now b).n ≤ b.length) ∧
    (c.Read now b).self.bytesLimit = c.bytesLimit ∧
    ∀ (now2 : Int) (b2 : List Byte),
      (((c.Read now b).self.Read now2 b2).n : Int) ≤ c.bytesLimit ∧
      (((c.Read now b).self.updateTimeout now2).1 = none →
        ((c.Read now b).self.Read now2 b2).n =
          (LimitedReader.Read
            ⟨((c.Read now b).self.updateTimeout now2).2.netConn, c.bytesLimit⟩ b2).n) := by
  have hb := (Conn_Read_bytesLimit c now b).1
  refine ⟨⟨(Conn_Read_n_le c now b).2 hlim, (Conn_Read_n_le c now b).1⟩, hb, ?_⟩
  intro now2 b2
  constructor
  · have h2 := (Conn_Read_n_le (c.Read now b).self now2 b2).2
    rw [hb] at h2
    exact h2 hlim
  · intro hok
    rw [Conn_Read_of_ok _ now2 b2 hok, hb]

/-- Witness of C1: limit 3, the peer has sent six bytes, two reads into a buffer of four
return three bytes each. -/
theorem Conn_Read_capped_per_call_witness :
    (((sixBytes.Read 10 [0, 0, 0, 0]).n : Int) ≤ 3 ∧ (sixBytes.Read 10 [0, 0, 0, 0]).n ≤ 4) ∧
    (sixBytes.Read 10 [0, 0, 0, 0]).n = 3 ∧
    ((((sixBytes.Read 10 [0, 0, 0, 0]).self.Read 11 [0, 0, 0, 0]).n : Int) ≤ 3) ∧
    ((sixBytes.Read 10 [0, 0, 0, 0]).self.Read 11 [0, 0, 0, 0]).n = 3 :=
  have h := Conn_Read_capped_per_call sixBytes 10 [0, 0, 0, 0] (by decide)
  ⟨h.1, by decide, (h.2.2 11 [0, 0, 0, 0]).1, by decide⟩

/-- C5: if rearming the deadline fails with `e`, `Conn.Write` and `Conn.Read` return `(0, e)`,
the buffer is left as it was, and the only call the transport received is that `SetDeadline`:
no read, no write, the stream in both directions and the armed deadline are unchanged. -/
theorem deadline_failure_propagates (c : Conn) (now : Int) (p : List Byte) (e : Error)
    (h : (c.netConn.SetDeadline (now + c.idleTimeout)).1 = some e) :
    ((c.Write now p).n = 0 ∧ (c.Write now p).err = some e) ∧
    ((c.Read now p).n = 0 ∧ (c.Read now p).err = some e ∧ (c.Read now p).p = p) ∧
    (c.Write now p).self.netConn = (c.netConn.SetDeadline (now + c.idleTimeout)).2 ∧
    (c.Read now p).self.netConn = (c.netConn.SetDeadline (now + c.idleTimeout)).2 ∧
    (∀ s : Sock, s = (c.Write now p).self.netConn ∨ s = (c.Read now p).self.netConn →
      s.calls = c.netConn.calls ++ [Call.setDeadline (now + c.idleTimeout)] ∧
      s.inbox = c.netConn.inbox ∧ s.outbox = c.netConn.outbox ∧
      s.deadline = c.netConn.deadline ∧ s.closed = c.netConn.closed) := by
  have hd : (c.netConn.SetDeadline (now + c.idleTimeout)).2.deadline = c.netConn.deadline := by
    have h1 : (c.netConn.SetDeadline (now + c.idleTimeout)).2.deadline
        = if (c.netConn.SetDeadline (now + c.idleTimeout)).1 = none
            then some (now + c.idleTimeout) else c.netConn.deadline := rfl
    rw [h1, h]; simp
  rw [Conn_Write_of_fail c now p e h, Conn_Read_of_fail c now p e h]
  refine ⟨⟨rfl, rfl⟩, ⟨rfl, rfl, rfl⟩, rfl, rfl, ?_⟩
  intro s hs
  have hs1 : s = (c.netConn.SetDeadline (now + c.idleTimeout)).2 := by
    rcases hs with hs | hs <;> exact hs
  subst hs1
  exact ⟨rfl, rfl, rfl, hd, rfl⟩

/-- Witness of C5: the transport answers the first call with an error. -/
theorem deadline_failure_propagates_witness :
    ((refusing.Write 100 [1, 2]).n = 0 ∧ (refusing.Write 100 [1, 2]).err = some (Error.net 9)) ∧
    ((refusing.Read 100 [1, 2]).n = 0 ∧ (refusing.Read 100 [1, 2]).err = some (Error.net 9) ∧
      (refusing.Read 100 [1, 2]).p = [1, 2]) :=
  have h := deadline_failure_propagates refusing 100 [1, 2] (Error.net 9) (by decide)
  ⟨h.1, h.2.1⟩

theorem Sock_SetDeadline_deadline (s : Sock) (t : Int) :
    (s.SetDeadline t).2.deadline = if (s.SetDeadline t).1 = none then some t else s.deadline := rfl

theorem Sock_SetDeadline_calls (s : Sock) (t : Int) :
    (s.SetDeadline t).2.calls = s.calls ++ [Call.setDeadline t] := rfl

theorem LimitedReader_Read_deadline (l : LimitedReader) (p : List Byte) :
    (l.Read p).self.R.deadline = l.R.deadline ∧
    ∃ rest, (l.Read p).self.R.calls = l.R.calls ++ rest := by
  unfold LimitedReader.Read
  split
  · exact ⟨rfl, [], by simp⟩
  · exact ⟨rfl, _, rfl⟩

/-- C8, the counterexample: the transport refuses the `SetDeadline` of `NewConn`; the result
is discarded and the connection is returned with no deadline armed. -/
theorem NewConn_deadline_unarmed :
    (NewConn refusing.netConn 5 16 100).netConn.deadline = none ∧
    (NewConn refusing.netConn 5 16 100).netConn.deadline ≠ some (100 + 5) := by
  decide

/-- C8, amended: `NewConn` at time `t` asks the transport for the deadline `t + idleTimeout`
and discards the answer, so the deadline is `t + idleTimeout` when the transport accepts it
and is left as it was otherwise.  A `Conn.Read` or `Conn.Write` at time `t` whose rearm
succeeds asks for `t + idleTimeout` before any other call on the transport, and the deadline
is `t + idleTimeout` when the operation returns.  `idleTimeout` and `bytesLimit` are what was
given to `NewConn` and are left unchanged by `Read` and `Write`. -/
theorem sliding_deadline (raw : Sock) (idle lim t : Int) (c : Conn) (b : List Byte)
    (hr : (c.netConn.SetDeadline (t + c.idleTimeout)).1 = none) :
    ((NewConn raw idle lim t).idleTimeout = idle ∧ (NewConn raw idle lim t).bytesLimit = lim ∧
      (NewConn raw idle lim t).netConn.calls = raw.calls ++ [Call.setDeadline (t + idle)] ∧
      (NewConn raw idle lim t).netConn.deadline =
        if (raw.SetDeadline (t + idle)).1 = none then some (t + idle) else raw.deadline) ∧
    ((c.Read t b).self.netConn.deadline = some (t + c.idleTimeout) ∧
      (∃ rest, (c.Read t b).self.netConn.calls =
        c.netConn.calls ++ Call.setDeadline (t + c.idleTimeout) :: rest) ∧
      (c.Read t b).self.idleTimeout = c.idleTimeout ∧ (c.Read t b).self.bytesLimit = c.bytesLimit) ∧
    ((c.Write t b).self.netConn.deadline = some (t + c.idleTimeout) ∧
      (c.Write t b).self.netConn.calls =
        c.netConn.calls ++ [Call.setDeadline (t + c.idleTimeout), Call.write b] ∧
      (c.Write t b).self.idleTimeout = c.idleTimeout ∧
      (c.Write t b).self.bytesLimit = c.bytesLimit) := by
  have hd : (c.updateTimeout t).2.netConn.deadline = some (t + c.idleTimeout) := by
    show (c.netConn.SetDeadline (t + c.idleTimeout)).2.deadline = _
    rw [Sock_SetDeadline_deadline, hr]; simp
  have hc : (c.updateTimeout t).2.netConn.calls
      = c.netConn.calls ++ [Call.setDeadline (t + c.idleTimeout)] := rfl
  refine ⟨⟨rfl, rfl, rfl, rfl⟩, ⟨?_, ?_, (Conn_Read_bytesLimit c t b).2, (Conn_Read_bytesLimit c t b).1⟩,
    ⟨?_, ?_, (Conn_Write_bytesLimit c t b).2, (Conn_Write_bytesLimit c t b).1⟩⟩
  · rw [Conn_Read_of_ok c t b hr]
    have h := (LimitedReader_Read_deadline ⟨(c.updateTimeout t).2.netConn, c.bytesLimit⟩ b).1
    exact h.trans hd
  · rw [Conn_Read_of_ok c t b hr]
    obtain ⟨rest, h⟩ := (LimitedReader_Read_deadline ⟨(c.updateTimeout t).2.netConn, c.bytesLimit⟩ b).2
    refine ⟨rest, ?_⟩
    show (LimitedReader.Read ⟨(c.updateTimeout t).2.netConn, c.bytesLimit⟩ b).self.R.calls = _
    rw [h]
    show (c.updateTimeout t).2.netConn.calls ++ rest = _
    rw [hc]; simp
  · rw [Conn_Write_of_ok c t b hr]
    exact hd
  · rw [Conn_Write_of_ok c t b hr]
    show (c.updateTimeout t).2.netConn.calls ++ [Call.write b] = _
    rw [hc]; simp

/-- Witness of C8: a read at time 10 with idle timeout 5 leaves the deadline at 15. -/
theorem sliding_deadline_witness :
    (sixBytes.Read 10 [0, 0, 0, 0]).self.netConn.deadline = some (10 + 5) ∧
    (sixBytes.Write 10 [0, 0, 0, 0]).self.netConn.deadline = some (10 + 5) :=
  have h := sliding_deadline sixBytes.netConn 5 3 10 sixBytes [0, 0, 0, 0] (by decide)
  ⟨h.2.1.1, h.2.2.1⟩

/-! ### bytes.Trim -/

theorem bytes_Trim_eq (s : List Byte) (c : Byte) :
    bytes.Trim s c = (s.rdropWhile (fun x => x == c)).dropWhile (fun x => x == c) := by
  unfold bytes.Trim bytes.trimLeftByte bytes.trimRightByte
  split
  · rename_i h
    rw [List.length_eq_zero.mp h]
    simp
  · rfl

theorem rdropWhile_append_replicate (d : List Byte) (c : Byte) (k : Nat) :
    (d ++ List.replicate k c).rdropWhile (fun x => x == c) = d.rdropWhile (fun x => x == c) := by
  induction k with
  | zero => simp
  | succ k ih =>
    rw [List.replicate_succ', ← List.append_assoc, List.rdropWhile_concat_pos _ _ _ (by simp), ih]

/-- Padding with the trimmed byte at the end does not change the result of `bytes.Trim`. -/
theorem bytes_Trim_append_replicate (d : List Byte) (c : Byte) (k : Nat) :
    bytes.Trim (d ++ List.replicate k c) c = bytes.Trim d c := by
  rw [bytes_Trim_eq, bytes_Trim_eq, rdropWhile_append_replicate]

theorem bytes_Trim_length_le (s : List Byte) (c : Byte) : (bytes.Trim s c).length ≤ s.length := by
  rw [bytes_Trim_eq]
  exact le_trans (List.dropWhile_suffix _).length_le (List.rdropWhile_prefix _ _).length_le

/-- A slice whose first and last bytes differ from `c` is a fixed point of `bytes.Trim`. -/
theorem bytes_Trim_of_edges (m : List Byte) (c : Byte) (hne : m ≠ [])
    (hfirst : m.head hne ≠ c) (hlast : m.getLast hne ≠ c) : bytes.Trim m c = m := by
  rw [bytes_Trim_eq]
  have h1 : m.rdropWhile (fun x => x == c) = m := by
    rw [List.rdropWhile_eq_self_iff]
    intro hl
    simpa using hlast
  rw [h1, List.dropWhile_eq_self_iff]
  intro hl
  have h2 : m.get ⟨0, hl⟩ = m.head hne := by
    cases m with
    | nil => exact absurd rfl hne
    | cons a m => rfl
  rw [h2]
  simpa using hfirst

theorem rdropWhile_append_rtakeWhile {α : Type} (p : α → Bool) (l : List α) :
    l.rdropWhile p ++ l.rtakeWhile p = l := by
  unfold List.rdropWhile List.rtakeWhile
  rw [← List.reverse_append, List.takeWhile_append_dropWhile, List.reverse_reverse]

theorem takeWhile_eq_replicate (s : List Byte) (c : Byte) :
    s.takeWhile (fun x => x == c) = List.replicate (s.takeWhile (fun x => x == c)).length c := by
  rw [List.eq_replicate_iff]
  refine ⟨rfl, fun b hb => ?_⟩
  simpa using List.mem_takeWhile_imp hb

theorem rtakeWhile_eq_replicate (s : List Byte) (c : Byte) :
    s.rtakeWhile (fun x => x == c) = List.replicate (s.rtakeWhile (fun x => x == c)).length c := by
  rw [List.eq_replicate_iff]
  refine ⟨rfl, fun b hb => ?_⟩
  simpa using List.mem_rtakeWhile_imp hb

/-- What `bytes.Trim` removes and what it keeps: `s` is a run of `c`, then the result, then a
run of `c`, and the result neither starts nor ends with `c`. -/
theorem bytes_Trim_spec (s : List Byte) (c : Byte) :
    (∃ k j : Nat, s = List.replicate k c ++ bytes.Trim s c ++ List.replicate j c) ∧
    (∀ x, (bytes.Trim s c).head? = some x → x ≠ c) ∧
    (∀ x, (bytes.Trim s c).getLast? = some x → x ≠ c) := by
  rw [bytes_Trim_eq]
  refine ⟨⟨((s.rdropWhile (fun x => x == c)).takeWhile (fun x => x == c)).length,
      (s.rtakeWhile (fun x => x == c)).length, ?_⟩, ?_, ?_⟩
  · rw [← takeWhile_eq_replicate, ← rtakeWhile_eq_replicate, List.takeWhile_append_dropWhile]
    exact (rdropWhile_append_rtakeWhile _ _).symm
  · intro x hx
    have h := List.head?_dropWhile_not (fun x => x == c) (s.rdropWhile (fun x => x == c))
    rw [hx] at h
    simpa using h
  · intro x hx
    generalize hr : s.rdropWhile (fun x => x == c) = r at hx
    have hsuf : (r.dropWhile (fun x => x == c)) <:+ r := List.dropWhile_suffix _
    have hne : r.dropWhile (fun x => x == c) ≠ [] := by
      intro h0; rw [h0] at hx; simp at hx
    have hrne : r ≠ [] := by
      intro h0; rw [h0] at hne; simp at hne
    have hlast : (r.dropWhile (fun x => x == c)).getLast hne = r.getLast hrne := by
      obtain ⟨t, ht⟩ := hsuf
      have : r.getLast hrne = (t ++ r.dropWhile (fun x => x == c)).getLast (by rw [ht]; exact hrne) := by
        congr 1; exact ht.symm
      rw [this, List.getLast_append_of_ne_nil hne]
    have hx2 : x = r.getLast hrne := by
      rw [List.getLast?_eq_getLast _ hne] at hx
      rw [← hlast]; exact (Option.some.inj hx).symm
    have hnot := List.rdropWhile_last_not (fun x => x == c) s (by rw [hr]; exact hrne)
    have : (s.rdropWhile (fun x => x == c)).getLast (by rw [hr]; exact hrne) = r.getLast hrne := by
      congr 1
    rw [this, ← hx2] at hnot
    simpa using hnot

/-! ### bufio.Reader -/

theorem copy_spec (dst src : List Byte) :
    (copy dst src).1 ≤ dst.length ∧ (copy dst src).1 ≤ src.length ∧
    ∃ d : List Byte, d.length = (copy dst src).1 ∧ (copy dst src).2 = d ++ dst.drop (copy dst src).1 := by
  simp only [copy]
  refine ⟨Nat.min_le_left _ _, Nat.min_le_right _ _, src.take (min dst.length src.length), ?_, rfl⟩
  rw [List.length_take]
  omega

theorem Reader_copyOut_spec (b : Reader) (rd : Conn) (p : List Byte) :
    (b.copyOut rd p).n ≤ p.length ∧ (b.copyOut rd p).n ≤ b.w - b.r ∧
    (∃ d : List Byte, d.length = (b.copyOut rd p).n ∧
      (b.copyOut rd p).p = d ++ p.drop (b.copyOut rd p).n) ∧
    (b.copyOut rd p).self.2 = rd ∧ (b.copyOut rd p).self.1.w = b.w ∧
    (b.copyOut rd p).self.1.r = b.r + (b.copyOut rd p).n := by
  have h := copy_spec p ((b.buf.take b.w).drop b.r)
  have hl : ((b.buf.take b.w).drop b.r).length ≤ b.w - b.r := by
    rw [List.length_drop, List.length_take]
    omega
  exact ⟨h.1, le_trans h.2.1 hl, h.2.2, rfl, rfl, rfl⟩

/-- What `(*bufio.Reader).Read` returns over a connection: at most `len(p)` bytes are stored
at the front of `p` and the rest of `p` is untouched; the limit of the connection is kept;
and when no more than `bytesLimit` bytes are buffered, no more than `bytesLimit` bytes are
returned and no more than `bytesLimit` bytes stay buffered. -/
theorem Reader_Read_spec (b : Reader) (rd : Conn) (now : Int) (p : List Byte) :
    (b.Read rd now p).n ≤ p.length ∧
    (∃ d : List Byte, d.length = (b.Read rd now p).n ∧
      (b.Read rd now p).p = d ++ p.drop (b.Read rd now p).n) ∧
    (b.Read rd now p).self.2.bytesLimit = rd.bytesLimit ∧
    (0 ≤ rd.bytesLimit → ((b.w - b.r : Nat) : Int) ≤ rd.bytesLimit →
      ((b.Read rd now p).n : Int) ≤ rd.bytesLimit ∧
      (((b.Read rd now p).self.1.w - (b.Read rd now p).self.1.r : Nat) : Int) ≤ rd.bytesLimit) := by
  unfold Reader.Read
  split
  · -- len(p) == 0
    split
    · exact ⟨Nat.zero_le _, ⟨[], rfl, by simp⟩, rfl, fun h0 hb => ⟨by simpa using h0, hb⟩⟩
    · exact ⟨Nat.zero_le _, ⟨[], rfl, by simp⟩, rfl, fun h0 hb => ⟨by simpa using h0, hb⟩⟩
  · split
    · -- b.r == b.w
      rename_i hrw
      split
      · exact ⟨Nat.zero_le _, ⟨[], rfl, by simp⟩, rfl, fun h0 hb => ⟨by simpa using h0, hb⟩⟩
      · split
        · -- large read, empty buffer
          refine ⟨(Conn_Read_n_le rd now p).1, Conn_Read_p rd now p,
            (Conn_Read_bytesLimit rd now p).1, fun h0 hb => ⟨(Conn_Read_n_le rd now p).2 h0, hb⟩⟩
        · -- one read
          have hn := (Conn_Read_n_le rd now b.buf).2
          have hl := (Conn_Read_bytesLimit rd now b.buf).1
          dsimp only
          split
          · exact ⟨Nat.zero_le _, ⟨[], rfl, by simp⟩, hl, fun h0 _ => ⟨by simpa using h0, by simpa using h0⟩⟩
          · simp only [Nat.zero_add]
            generalize hb1 : (Reader.mk (rd.Read now b.buf).p 0 (rd.Read now b.buf).n
              (rd.Read now b.buf).err) = b1
            have hc := Reader_copyOut_spec b1 (rd.Read now b.buf).self p
            have hw : b1.w = (rd.Read now b.buf).n := by rw [← hb1]
            have hr : b1.r = 0 := by rw [← hb1]
            refine ⟨hc.1, hc.2.2.1, ?_, fun h0 _ => ?_⟩
            · rw [hc.2.2.2.1]; exact hl
            · have h1 := hn h0
              have h2 := hc.2.1
              rw [hc.2.2.2.2.1, hc.2.2.2.2.2]
              constructor <;> omega
    · -- buffered data
      have hc := Reader_copyOut_spec b rd p
      refine ⟨hc.1, hc.2.2.1, ?_, fun h0 hb => ?_⟩
      · rw [hc.2.2.2.1]
      · have h2 := hc.2.1
        rw [hc.2.2.2.2.1, hc.2.2.2.2.2]
        constructor <;> omega

/-! ### bufio.Writer -/

theorem Writer_Flush_bytesLimit (b : Writer) (wr : Conn) (now : Int) :
    (b.Flush wr now).2.2.bytesLimit = wr.bytesLimit := by
  unfold Writer.Flush
  split
  · rfl
  · split
    · rfl
    · dsimp only
      generalize (if (wr.Write now (b.buf.take b.n)).n < b.n ∧ (wr.Write now (b.buf.take b.n)).err = none
        then some Error.ErrShortWrite else (wr.Write now (b.buf.take b.n)).err) = err
      split
      · exact (Conn_Write_bytesLimit wr now _).1
      · exact (Conn_Write_bytesLimit wr now _).1

/-- After a flush of a writer without error that holds bytes, the writer has an error or is empty. -/
theorem Writer_Flush_done (b : Writer) (wr : Conn) (now : Int) (he : b.err = none) (hn : b.n ≠ 0) :
    (b.Flush wr now).2.1.err ≠ none ∨ (b.Flush wr now).2.1.n = 0 := by
  unfold Writer.Flush
  simp only [he, ne_eq, not_true_eq_false, if_false, hn]
  generalize (if (wr.Write now (b.buf.take b.n)).n < b.n ∧ (wr.Write now (b.buf.take b.n)).err = none
    then some Error.ErrShortWrite else (wr.Write now (b.buf.take b.n)).err) = err
  split
  · rename_i h
    left
    exact h
  · right
    rfl

theorem Writer_writeLoop_of_exit (now : Int) (fuel : Nat) (p : List Byte) (nn : Nat) (b : Writer)
    (wr : Conn) (h : ¬(p.length > b.Available ∧ b.err = none)) :
    Writer.writeLoop now fuel p nn b wr = (p, nn, b, wr) := by
  cases fuel with
  | zero => rfl
  | succ fuel => simp only [Writer.writeLoop, h, if_false]

theorem Writer_writeLoop_direct (now : Int) (fuel : Nat) (p : List Byte) (nn : Nat) (b : Writer)
    (wr : Conn) (h : p.length > b.Available ∧ b.err = none) (h0 : b.Buffered = 0) :
    Writer.writeLoop now (fuel + 1) p nn b wr =
      Writer.writeLoop now fuel (p.drop (wr.Write now p).n) (nn + (wr.Write now p).n)
        { b with err := (wr.Write now p).err } (wr.Write now p).self := by
  simp only [Writer.writeLoop, h, h0, and_self, if_true]

theorem Writer_writeLoop_flush (now : Int) (fuel : Nat) (p : List Byte) (nn : Nat) (b : Writer)
    (wr : Conn) (h : p.length > b.Available ∧ b.err = none) (h0 : b.Buffered ≠ 0) :
    Writer.writeLoop now (fuel + 1) p nn b wr =
      Writer.writeLoop now fuel (p.drop (copy (b.buf.drop b.n) p).1)
        (nn + (copy (b.buf.drop b.n) p).1)
        (Writer.Flush { b with buf := b.buf.take b.n ++ (copy (b.buf.drop b.n) p).2,
                               n := b.n + (copy (b.buf.drop b.n) p).1 } wr now).2.1
        (Writer.Flush { b with buf := b.buf.take b.n ++ (copy (b.buf.drop b.n) p).2,
                               n := b.n + (copy (b.buf.drop b.n) p).1 } wr now).2.2 := by
  simp only [Writer.writeLoop, h, h0, and_self, if_true, if_false]

/-- After a direct write the loop condition of `Write` is false. -/
theorem Writer_direct_exit (now : Int) (p : List Byte) (b : Writer) (wr : Conn) :
    ¬((p.drop (wr.Write now p).n).length > ({ b with err := (wr.Write now p).err } : Writer).Available
      ∧ ({ b with err := (wr.Write now p).err } : Writer).err = none) := by
  rintro ⟨h1, h2⟩
  have h3 := Conn_Write_n_of_ok wr now p h2
  rw [h3] at h1
  simp at h1

/-- The loop of `(*bufio.Writer).Write` is over after two rounds: at the state `writeLoop`
returns with fuel 2 the loop condition is false. -/
theorem Writer_writeLoop_exit (now : Int) (p : List Byte) (nn : Nat) (b : Writer) (wr : Conn) :
    ¬((Writer.writeLoop now 2 p nn b wr).1.length > (Writer.writeLoop now 2 p nn b wr).2.2.1.Available
      ∧ (Writer.writeLoop now 2 p nn b wr).2.2.1.err = none) := by
  by_cases h : p.length > b.Available ∧ b.err = none
  · by_cases h0 : b.Buffered = 0
    · rw [Writer_writeLoop_direct now 1 p nn b wr h h0,
        Writer_writeLoop_of_exit now 1 _ _ _ _ (Writer_direct_exit now p b wr)]
      exact Writer_direct_exit now p b wr
    · rw [Writer_writeLoop_flush now 1 p nn b wr h h0]
      generalize hb1 : ({ b with buf := b.buf.take b.n ++ (copy (b.buf.drop b.n) p).2,
                                 n := b.n + (copy (b.buf.drop b.n) p).1 } : Writer) = b1
      have he : b1.err = none := by rw [← hb1]; exact h.2
      have hn : b1.n ≠ 0 := by
        rw [← hb1]
        have : b.n ≠ 0 := h0
        show b.n + _ ≠ 0
        omega
      generalize hp1 : p.drop (copy (b.buf.drop b.n) p).1 = p1
      generalize hnn : nn + (copy (b.buf.drop b.n) p).1 = nn1
      by_cases h1 : p1.length > (b1.Flush wr now).2.1.Available ∧ (b1.Flush wr now).2.1.err = none
      · have h2 : (b1.Flush wr now).2.1.Buffered = 0 := by
          rcases Writer_Flush_done b1 wr now he hn with h3 | h3
          · exact absurd h1.2 h3
          · exact h3
        rw [Writer_writeLoop_direct now 0 p1 nn1 _ _ h1 h2]
        exact Writer_direct_exit now p1 _ _
      · rw [Writer_writeLoop_of_exit now 1 _ _ _ _ h1]
        exact h1
  · rw [Writer_writeLoop_of_exit now 2 _ _ _ _ h]
    exact h

theorem Writer_writeLoop_bytesLimit (now : Int) (fuel : Nat) (p : List Byte) (nn : Nat)
    (b : Writer) (wr : Conn) :
    (Writer.writeLoop now fuel p nn b wr).2.2.2.bytesLimit = wr.bytesLimit := by
  induction fuel generalizing p nn b wr with
  | zero => rfl
  | succ fuel ih =>
    by_cases h : p.length > b.Available ∧ b.err = none
    · by_cases h0 : b.Buffered = 0
      · rw [Writer_writeLoop_direct now fuel p nn b wr h h0, ih]
        exact (Conn_Write_bytesLimit wr now p).1
      · rw [Writer_writeLoop_flush now fuel p nn b wr h h0, ih]
        exact Writer_Flush_bytesLimit _ wr now
    · rw [Writer_writeLoop_of_exit now _ _ _ _ _ h]

theorem Writer_Write_bytesLimit (b : Writer) (wr : Conn) (now : Int) (p : List Byte) :
    (b.Write wr now p).self.2.bytesLimit = wr.bytesLimit := by
  unfold Writer.Write
  dsimp only
  split
  · exact Writer_writeLoop_bytesLimit now 2 p 0 b wr
  · exact Writer_writeLoop_bytesLimit now 2 p 0 b wr

/-! ### The per-connection loop -/

theorem logIf_eq (err : Option Error) (trace : List Event) :
    ∃ l : List Event, logIf err trace = trace ++ l ∧ ∀ e ∈ l, ∃ x, e = Event.log x := by
  cases err with
  | none => exact ⟨[], by simp [logIf], by simp⟩
  | some e => exact ⟨[Event.log e], rfl, by simp⟩

/-- The message the reading goroutine sends: `bytes.Trim` of the `n` bytes the read stored,
which is no longer than `n`. -/
theorem readTask_spec (t : Task) (now : Int) :
    (readTask t now).1 = bytes.Trim (t.r.Read t.conn now (List.replicate BufSize 0)).p 0 ∧
    (readTask t now).1 =
      bytes.Trim ((t.r.Read t.conn now (List.replicate BufSize 0)).p.take
        (t.r.Read t.conn now (List.replicate BufSize 0)).n) 0 ∧
    (readTask t now).1.length ≤ (t.r.Read t.conn now (List.replicate BufSize 0)).n := by
  obtain ⟨d, hd, hp⟩ := (Reader_Read_spec t.r t.conn now (List.replicate BufSize 0)).2.1
  have h1 : (readTask t now).1
      = bytes.Trim (t.r.Read t.conn now (List.replicate BufSize 0)).p 0 := rfl
  have h2 : (t.r.Read t.conn now (List.replicate BufSize 0)).p.take
      (t.r.Read t.conn now (List.replicate BufSize 0)).n = d := by
    rw [hp, ← hd]; simp
  have h3 : bytes.Trim (t.r.Read t.conn now (List.replicate BufSize 0)).p 0 = bytes.Trim d 0 := by
    rw [hp, List.drop_replicate, bytes_Trim_append_replicate]
  refine ⟨h1, ?_, ?_⟩
  · rw [h1, h2, h3]
  · rw [h1, h3, ← hd]
    exact bytes_Trim_length_le d 0

theorem loopBody_timer (h : Handler) (tk : Tick) (t : Task) (htk : tk.timerFirst = true) :
    loopBody h tk t = Step.ret t := by
  simp only [loopBody, htk, if_true]

theorem loopBody_handler_err (h : Handler) (tk : Tick) (t : Task) (e : Error)
    (htk : tk.timerFirst = false) (he : (h (readTask t tk.tRead).1).2 = some e) :
    loopBody h tk t = Step.ret { (readTask t tk.tRead).2 with
      trace := (readTask t tk.tRead).2.trace ++ [Event.handle (readTask t tk.tRead).1]
        ++ [Event.log e] } := by
  simp only [loopBody, htk, he]
  rfl

theorem loopBody_write_err (h : Handler) (tk : Tick) (t : Task) (e : Error)
    (htk : tk.timerFirst = false) (he : (h (readTask t tk.tRead).1).2 = none)
    (hw : ((readTask t tk.tRead).2.w.Write (readTask t tk.tRead).2.conn tk.tWrite
      (h (readTask t tk.tRead).1).1).err = some e) :
    loopBody h tk t = Step.ret
      { conn := ((readTask t tk.tRead).2.w.Write (readTask t tk.tRead).2.conn tk.tWrite
          (h (readTask t tk.tRead).1).1).self.2
        r := (readTask t tk.tRead).2.r
        w := ((readTask t tk.tRead).2.w.Write (readTask t tk.tRead).2.conn tk.tWrite
          (h (readTask t tk.tRead).1).1).self.1
        trace := (readTask t tk.tRead).2.trace ++ [Event.handle (readTask t tk.tRead).1]
          ++ [Event.log e] } := by
  simp only [loopBody, htk, he, hw]
  rfl

theorem loopBody_ok (h : Handler) (tk : Tick) (t : Task)
    (htk : tk.timerFirst = false) (he : (h (readTask t tk.tRead).1).2 = none)
    (hw : ((readTask t tk.tRead).2.w.Write (readTask t tk.tRead).2.conn tk.tWrite
      (h (readTask t tk.tRead).1).1).err = none) :
    loopBody h tk t = Step.next
      { conn := (Writer.Flush ((readTask t tk.tRead).2.w.Write (readTask t tk.tRead).2.conn
            tk.tWrite (h (readTask t tk.tRead).1).1).self.1
          ((readTask t tk.tRead).2.w.Write (readTask t tk.tRead).2.conn tk.tWrite
            (h (readTask t tk.tRead).1).1).self.2 tk.tFlush).2.2
        r := (readTask t tk.tRead).2.r
        w := (Writer.Flush ((readTask t tk.tRead).2.w.Write (readTask t tk.tRead).2.conn
            tk.tWrite (h (readTask t tk.tRead).1).1).self.1
          ((readTask t tk.tRead).2.w.Write (readTask t tk.tRead).2.conn tk.tWrite
            (h (readTask t tk.tRead).1).1).self.2 tk.tFlush).2.1
        trace := logIf (Writer.Flush ((readTask t tk.tRead).2.w.Write (readTask t tk.tRead).2.conn
            tk.tWrite (h (readTask t tk.tRead).1).1).self.1
          ((readTask t tk.tRead).2.w.Write (readTask t tk.tRead).2.conn tk.tWrite
            (h (readTask t tk.tRead).1).1).self.2 tk.tFlush).1
          ((readTask t tk.tRead).2.trace ++ [Event.handle (readTask t tk.tRead).1]) } := by
  simp only [loopBody, htk, he, hw]
  rfl

/-- Whenever the read wins the race the handler is called with the message of `readTask`:
the record of the iteration is the record after the read, then that call, then the rest. -/
theorem loopBody_handles (h : Handler) (tk : Tick) (t : Task) (htk : tk.timerFirst = false) :
    ∃ rest : List Event, (loopBody h tk t).task.trace =
      (readTask t tk.tRead).2.trace ++ Event.handle (readTask t tk.tRead).1 :: rest ∧
      ∀ e ∈ rest, ∃ x, e = Event.log x := by
  cases he : (h (readTask t tk.tRead).1).2 with
  | some e =>
    rw [loopBody_handler_err h tk t e htk he]
    exact ⟨[Event.log e], by simp [Step.task], by simp⟩
  | none =>
    cases hw : ((readTask t tk.tRead).2.w.Write (readTask t tk.tRead).2.conn tk.tWrite
      (h (readTask t tk.tRead).1).1).err with
    | some e =>
      rw [loopBody_write_err h tk t e htk he hw]
      exact ⟨[Event.log e], by simp [Step.task], by simp⟩
    | none =>
      rw [loopBody_ok h tk t htk he hw]
      obtain ⟨l, hl, hl2⟩ := logIf_eq (Writer.Flush ((readTask t tk.tRead).2.w.Write
        (readTask t tk.tRead).2.conn tk.tWrite (h (readTask t tk.tRead).1).1).self.1
        ((readTask t tk.tRead).2.w.Write (readTask t tk.tRead).2.conn tk.tWrite
          (h (readTask t tk.tRead).1).1).self.2 tk.tFlush).1
        ((readTask t tk.tRead).2.trace ++ [Event.handle (readTask t tk.tRead).1])
      refine ⟨l, ?_, hl2⟩
      show logIf _ _ = _
      rw [hl]; simp

/-! ### What the handler receives -/

set_option maxRecDepth 1000000 in
/-- C4, the counterexample: the peer sends a NUL byte and the letter A; the read stores both
at the front of the buffer, and the handler is called with the letter A alone. -/
theorem leading_nul_removed :
    (NewReader.Read nulFirst 1 (List.replicate BufSize 0)).n = 2 ∧
    (NewReader.Read nulFirst 1 (List.replicate BufSize 0)).p.take 2 = [0, 65] ∧
    (readTask (Task.start nulFirst) 1).1 = [65] ∧
    (loopBody EchoHandler readFirst (Task.start nulFirst)).task.trace = [Event.handle [65]] := by
  decide!

/-- C4, amended: when the read wins the race, the handler is called with `bytes.Trim` of the
read buffer: the buffer is a run of NUL bytes, then the message, then a run of NUL bytes, and
the message neither starts nor ends with a NUL byte.  NUL bytes are removed at both ends,
those at the front and at the end of the received data included; what lies between is
delivered unchanged. -/
theorem handler_gets_trimmed_buffer (h : Handler) (tk : Tick) (t : Task)
    (htk : tk.timerFirst = false) :
    (readTask t tk.tRead).1 = bytes.Trim (t.r.Read t.conn tk.tRead (List.replicate BufSize 0)).p 0 ∧
    (∃ k j : Nat, (t.r.Read t.conn tk.tRead (List.replicate BufSize 0)).p =
      List.replicate k 0 ++ (readTask t tk.tRead).1 ++ List.replicate j 0) ∧
    (∀ b, (readTask t tk.tRead).1.head? = some b → b ≠ 0) ∧
    (∀ b, (readTask t tk.tRead).1.getLast? = some b → b ≠ 0) ∧
    ∃ rest : List Event, (loopBody h tk t).task.trace =
      (readTask t tk.tRead).2.trace ++ Event.handle (readTask t tk.tRead).1 :: rest := by
  have h1 := (readTask_spec t tk.tRead).1
  have h2 := bytes_Trim_spec (t.r.Read t.conn tk.tRead (List.replicate BufSize 0)).p 0
  rw [← h1] at h2
  obtain ⟨rest, hrest, _⟩ := loopBody_handles h tk t htk
  exact ⟨h1, h2.1, h2.2.1, h2.2.2, rest, hrest⟩

set_option maxRecDepth 1000000 in
/-- Witness of C4: the peer sends a NUL byte and the letter A. -/
theorem handler_gets_trimmed_buffer_witness :
    (readTask (Task.start nulFirst) 1).1 = [65] ∧
    ∃ rest : List Event, (loopBody EchoHandler readFirst (Task.start nulFirst)).task.trace =
      (readTask (Task.start nulFirst) 1).2.trace ++ Event.handle (readTask (Task.start nulFirst) 1).1
        :: rest :=
  ⟨by decide!, (handler_gets_trimmed_buffer EchoHandler readFirst (Task.start nulFirst) rfl).2.2.2.2⟩

/-- C10: when the read wins the race and places at the front of the zeroed buffer of
`BufSize` bytes a message `m` of 1 to `BufSize` bytes whose first and last bytes are not NUL,
the handler is called with exactly `m`; when the read leaves the buffer all NUL, the handler
is still called, with the empty message. -/
theorem delivery_lossless (h : Handler) (tk : Tick) (t : Task) (htk : tk.timerFirst = false) :
    (∀ m : List Byte, 1 ≤ m.length → m.length ≤ BufSize →
      m.head? ≠ some 0 → m.getLast? ≠ some 0 →
      (t.r.Read t.conn tk.tRead (List.replicate BufSize 0)).p
        = m ++ List.replicate (BufSize - m.length) 0 →
      (readTask t tk.tRead).1 = m ∧
      ∃ rest : List Event, (loopBody h tk t).task.trace =
        (readTask t tk.tRead).2.trace ++ Event.handle m :: rest) ∧
    ((t.r.Read t.conn tk.tRead (List.replicate BufSize 0)).p = List.replicate BufSize 0 →
      (readTask t tk.tRead).1 = [] ∧
      ∃ rest : List Event, (loopBody h tk t).task.trace =
        (readTask t tk.tRead).2.trace ++ Event.handle [] :: rest) := by
  obtain ⟨rest, hrest, _⟩ := loopBody_handles h tk t htk
  have h1 := (readTask_spec t tk.tRead).1
  constructor
  · intro m hlen _ hfirst hlast hp
    have hne : m ≠ [] := by
      intro h0; rw [h0] at hlen; simp at hlen
    have hm : (readTask t tk.tRead).1 = m := by
      rw [h1, hp, bytes_Trim_append_replicate]
      apply bytes_Trim_of_edges m 0 hne
      · intro h0
        apply hfirst
        rw [List.head?_eq_head hne, h0]
      · intro h0
        apply hlast
        rw [List.getLast?_eq_getLast _ hne, h0]
    rw [hm] at hrest
    exact ⟨hm, rest, hrest⟩
  · intro hp
    have hm : (readTask t tk.tRead).1 = [] := by
      rw [h1, hp]
      have := bytes_Trim_append_replicate [] 0 BufSize
      simp only [List.nil_append] at this
      rw [this]
      rfl
    rw [hm] at hrest
    exact ⟨hm, rest, hrest⟩

set_option maxRecDepth 1000000 in
/-- Witness of C10: "hello" is delivered as "hello". -/
theorem delivery_lossless_witness :
    (readTask (Task.start helloConn) 1).1 = [104, 101, 108, 108, 111] ∧
    ∃ rest : List Event, (loopBody EchoHandler readFirst (Task.start helloConn)).task.trace =
      (readTask (Task.start helloConn) 1).2.trace ++ Event.handle [104, 101, 108, 108, 111] :: rest :=
  (delivery_lossless EchoHandler readFirst (Task.start helloConn) rfl).1 [104, 101, 108, 108, 111]
    (by decide) (by decide!) (by decide) (by decide) (by decide!)

/-! ### The registry -/

theorem lookup_cons_ite {β : Type} (l : List (Nat × β)) (a b : Nat) (g : β) :
    List.lookup b ((a, g) :: l) = if b = a then some g else List.lookup b l := by
  rw [List.lookup_cons]
  by_cases h : b = a
  · simp [h]
  · have : (b == a) = false := by simpa using h
    rw [this]; simp [h]

theorem lookup_filter_ne {β : Type} (l : List (Nat × β)) (k a : Nat) :
    List.lookup a (l.filter (fun e => e.1 != k)) = if a = k then none else List.lookup a l := by
  induction l with
  | nil => simp
  | cons e l ih =>
    obtain ⟨x, y⟩ := e
    by_cases hx : x = k
    · subst hx
      rw [List.filter_cons_of_neg (by simp), ih, lookup_cons_ite]
      by_cases ha : a = x
      · simp [ha]
      · simp [ha]
    · rw [List.filter_cons_of_pos (by simpa using hx), lookup_cons_ite, lookup_cons_ite, ih]
      by_cases ha : a = x
      · subst ha
        simp [hx]
      · simp [ha]

theorem ConnMap_get_delete (m : ConnMap) (k a : Nat) :
    (m.delete k).get a = if a = k then none else m.get a :=
  lookup_filter_ne m k a

theorem ConnMap_get_set (m : ConnMap) (k : Nat) (v : Bool) (a : Nat) :
    (m.set k v).get a = if a = k then some v else m.get a := by
  show List.lookup a ((k, v) :: m.filter (fun e => e.1 != k)) = _
  rw [lookup_cons_ite, lookup_filter_ne]
  by_cases h : a = k
  · simp [h]
  · simp only [h, if_false]
    rfl

theorem Server_addConn_get (s : Server) (c a : Nat) :
    (s.addConn c).connections.get a = if a = c then some true else s.connections.get a :=
  ConnMap_get_set s.connections c true a

theorem Server_closeConn_get (s : Server) (c : Nat) (x : Conn) (a : Nat) :
    (s.closeConn c x).1.connections.get a = if a = c then none else s.connections.get a :=
  ConnMap_get_delete s.connections c a

theorem Server_closeConn_conn (s : Server) (c : Nat) (x : Conn) :
    (s.closeConn c x).2.netConn.closed = true ∧
    (s.closeConn c x).2.netConn.calls = x.netConn.calls ++ [Call.close] ∧
    (s.closeConn c x).2.netConn.outbox = x.netConn.outbox ∧
    (s.closeConn c x).2.netConn.inbox = x.netConn.inbox ∧
    (s.closeConn c x).2.bytesLimit = x.bytesLimit :=
  ⟨rfl, rfl, rfl, rfl, rfl⟩

/-! ### One iteration of a goroutine in the system -/

theorem System_tick_next (h : Handler) (sys : System) (conn : Nat) (tk : Tick) (t t1 : Task)
    (hg : sys.goroutine conn = some (Goroutine.running t)) (hl : loopBody h tk t = Step.next t1) :
    sys.tick h conn tk =
      { sys with goroutines := (conn, Goroutine.running t1) :: sys.goroutines } := by
  simp only [System.tick, hg, hl]

theorem System_tick_ret (h : Handler) (sys : System) (conn : Nat) (tk : Tick) (t t1 : Task)
    (hg : sys.goroutine conn = some (Goroutine.running t)) (hl : loopBody h tk t = Step.ret t1) :
    sys.tick h conn tk =
      { sys with s := (sys.s.closeConn conn t1.conn).1
                 goroutines := (conn, Goroutine.exited
                   { t1 with conn := (sys.s.closeConn conn t1.conn).2
                             trace := t1.trace ++ [Event.logClosed] }) :: sys.goroutines } := by
  simp only [System.tick, hg, hl]

theorem System_tick_idle (h : Handler) (sys : System) (conn : Nat) (tk : Tick)
    (hg : ∀ t, sys.goroutine conn ≠ some (Goroutine.running t)) :
    sys.tick h conn tk = sys := by
  unfold System.tick
  split
  · rename_i t heq
    exact absurd heq (hg t)
  · rfl

/-- Once the goroutine of a connection has returned in an iteration, the system is in a
state where that goroutine is recorded as returned with its connection closed, the address is
not in the registry, and further iterations of that goroutine change nothing. -/
theorem System_tick_ret_spec (h : Handler) (sys : System) (conn : Nat) (tk : Tick) (t t1 : Task)
    (hg : sys.goroutine conn = some (Goroutine.running t)) (hl : loopBody h tk t = Step.ret t1) :
    (sys.tick h conn tk).goroutine conn = some (Goroutine.exited
      { t1 with conn := (sys.s.closeConn conn t1.conn).2
                trace := t1.trace ++ [Event.logClosed] }) ∧
    (sys.s.closeConn conn t1.conn).2.netConn.closed = true ∧
    (sys.s.closeConn conn t1.conn).2.netConn.calls = t1.conn.netConn.calls ++ [Call.close] ∧
    (sys.s.closeConn conn t1.conn).2.netConn.outbox = t1.conn.netConn.outbox ∧
    (sys.tick h conn tk).s.connections.get conn = none ∧
    ∀ tk2 : Tick, (sys.tick h conn tk).tick h conn tk2 = sys.tick h conn tk := by
  have hgo : (sys.tick h conn tk).goroutine conn = some (Goroutine.exited
      { t1 with conn := (sys.s.closeConn conn t1.conn).2
                trace := t1.trace ++ [Event.logClosed] }) := by
    rw [System_tick_ret h sys conn tk t t1 hg hl]
    show List.lookup conn (_ :: sys.goroutines) = _
    rw [lookup_cons_ite]; simp
  refine ⟨hgo, rfl, rfl, rfl, ?_, ?_⟩
  · rw [System_tick_ret h sys conn tk t t1 hg hl]
    show (sys.s.closeConn conn t1.conn).1.connections.get conn = none
    rw [Server_closeConn_get]; simp
  · intro tk2
    apply System_tick_idle
    intro t2 h2
    rw [hgo] at h2
    exact absurd h2 (by simp)

/-- C6: when `Handler.Handle` returns an error on the message of an iteration, the goroutine
returns in that iteration: after the call of the handler it only logs; the transport
receives no call but the `Close` of the deferred `closeConn`, so no byte is written; the
connection is closed and its address is removed from the registry; and the goroutine takes
no further step, so there is no further read and no further call of the handler. -/
theorem handler_error_closes (h : Handler) (sys : System) (conn : Nat) (tk : Tick) (t : Task)
    (e : Error) (hg : sys.goroutine conn = some (Goroutine.running t))
    (htk : tk.timerFirst = false) (he : (h (readTask t tk.tRead).1).2 = some e) :
    ∃ t1 : Task, (sys.tick h conn tk).goroutine conn = some (Goroutine.exited t1) ∧
      t1.trace = (readTask t tk.tRead).2.trace ++
        [Event.handle (readTask t tk.tRead).1, Event.log e, Event.logClosed] ∧
      t1.conn.netConn.outbox = (readTask t tk.tRead).2.conn.netConn.outbox ∧
      t1.conn.netConn.calls = (readTask t tk.tRead).2.conn.netConn.calls ++ [Call.close] ∧
      t1.conn.netConn.closed = true ∧
      (sys.tick h conn tk).s.connections.get conn = none ∧
      ∀ tk2 : Tick, (sys.tick h conn tk).tick h conn tk2 = sys.tick h conn tk := by
  have hl := loopBody_handler_err h tk t e htk he
  have hs := System_tick_ret_spec h sys conn tk t _ hg hl
  refine ⟨_, hs.1, ?_, rfl, rfl, rfl, hs.2.2.2.2.1, hs.2.2.2.2.2⟩
  simp

set_option maxRecDepth 1000000 in
/-- Witness of C6: the peer sends "hello" and the handler fails. -/
theorem handler_error_closes_witness :
    ∃ t1 : Task, ((oneTask (Task.start helloConn)).tick failing 0 readFirst).goroutine 0
        = some (Goroutine.exited t1) ∧
      t1.trace = (readTask (Task.start helloConn) 1).2.trace ++
        [Event.handle (readTask (Task.start helloConn) 1).1, Event.log (Error.net 7),
          Event.logClosed] ∧
      t1.conn.netConn.outbox = (readTask (Task.start helloConn) 1).2.conn.netConn.outbox ∧
      t1.conn.netConn.calls = (readTask (Task.start helloConn) 1).2.conn.netConn.calls
        ++ [Call.close] ∧
      t1.conn.netConn.closed = true ∧
      ((oneTask (Task.start helloConn)).tick failing 0 readFirst).s.connections.get 0 = none ∧
      ∀ tk2 : Tick, ((oneTask (Task.start helloConn)).tick failing 0 readFirst).tick failing 0 tk2
        = (oneTask (Task.start helloConn)).tick failing 0 readFirst :=
  handler_error_closes failing (oneTask (Task.start helloConn)) 0 readFirst (Task.start helloConn)
    (Error.net 7) rfl rfl rfl

set_option maxRecDepth 1000000 in
/-- C7, the code at the failing input: the peer has hung up, the read returns zero bytes and
`EOF`.  The error is only logged: the handler is called with the empty message, its answer
is written, and the loop goes round again with the connection open and registered, where
the handler-error and write-error paths of the same loop log and return.  The next
iteration does the same again. -/
theorem read_error_not_terminal :
    (NewReader.Read hungUp 1 (List.replicate BufSize 0)).err = some Error.EOF ∧
    (loopBody EchoHandler readFirst (Task.start hungUp)).task.trace
      = [Event.log Error.EOF, Event.handle []] ∧
    loopBody EchoHandler readFirst (Task.start hungUp)
      = Step.next (loopBody EchoHandler readFirst (Task.start hungUp)).task ∧
    (loopBody EchoHandler readFirst (Task.start hungUp)).task.conn.netConn.closed = false ∧
    (loopBody EchoHandler readFirst (Task.start hungUp)).task.conn.netConn.outbox
      = [121, 111, 117, 32, 115, 97, 105, 100, 58, 32] ∧
    ((oneTask (Task.start hungUp)).tick EchoHandler 0 readFirst).s.connections.get 0
      = some true ∧
    (loopBody EchoHandler readFirst
        (loopBody EchoHandler readFirst (Task.start hungUp)).task).task.trace
      = [Event.log Error.EOF, Event.handle [], Event.log Error.EOF, Event.handle []] ∧
    (((oneTask (Task.start hungUp)).tick EchoHandler 0 readFirst).tick EchoHandler 0
        readFirst).s.connections.get 0
      = some true := by
  decide!

set_option maxRecDepth 1000000 in
/-- A failure of `w.Flush` is logged and the loop goes round again: the connection stays open
and registered, and the writer keeps the error, so the `w.Write` of a later iteration fails. -/
theorem flush_error_not_terminal :
    (loopBody EchoHandler readFirst (Task.start brokenPipe)).task.trace
      = [Event.handle [104, 101, 108, 108, 111], Event.log (Error.net 4)] ∧
    loopBody EchoHandler readFirst (Task.start brokenPipe)
      = Step.next (loopBody EchoHandler readFirst (Task.start brokenPipe)).task ∧
    (loopBody EchoHandler readFirst (Task.start brokenPipe)).task.conn.netConn.closed = false ∧
    (loopBody EchoHandler readFirst (Task.start brokenPipe)).task.w.err = some (Error.net 4) ∧
    ((oneTask (Task.start brokenPipe)).tick EchoHandler 0 readFirst).s.connections.get 0
      = some true := by
  decide!

/-- The two paths of an iteration around the handler.  When `w.Write` on the answer of the
handler fails, the goroutine logs the error and returns in that iteration: its deferred
function closes the connection and removes it from the registry, the transport receives no
call after the failed write but that `Close`, and the goroutine takes no further step.  When
the read fails, the error is logged and the handler is then called, in the same iteration,
with the trimmed buffer. -/
theorem write_error_closes (h : Handler) (sys : System) (conn : Nat) (tk : Tick) (t : Task)
    (hg : sys.goroutine conn = some (Goroutine.running t)) (htk : tk.timerFirst = false) :
    (∀ e : Error, (h (readTask t tk.tRead).1).2 = none →
      ((readTask t tk.tRead).2.w.Write (readTask t tk.tRead).2.conn tk.tWrite
        (h (readTask t tk.tRead).1).1).err = some e →
      ∃ t1 : Task, (sys.tick h conn tk).goroutine conn = some (Goroutine.exited t1) ∧
        t1.trace = (readTask t tk.tRead).2.trace ++
          [Event.handle (readTask t tk.tRead).1, Event.log e, Event.logClosed] ∧
        t1.conn.netConn.calls =
          ((readTask t tk.tRead).2.w.Write (readTask t tk.tRead).2.conn tk.tWrite
            (h (readTask t tk.tRead).1).1).self.2.netConn.calls ++ [Call.close] ∧
        t1.conn.netConn.closed = true ∧
        (sys.tick h conn tk).s.connections.get conn = none ∧
        ∀ tk2 : Tick, (sys.tick h conn tk).tick h conn tk2 = sys.tick h conn tk) ∧
    (∀ e : Error, (t.r.Read t.conn tk.tRead (List.replicate BufSize 0)).err = some e →
      ∃ rest : List Event, (loopBody h tk t).task.trace =
        t.trace ++ Event.log e :: Event.handle (readTask t tk.tRead).1 :: rest) := by
  constructor
  · intro e he hw
    have hl := loopBody_write_err h tk t e htk he hw
    have hs := System_tick_ret_spec h sys conn tk t _ hg hl
    refine ⟨_, hs.1, ?_, rfl, rfl, hs.2.2.2.2.1, hs.2.2.2.2.2⟩
    simp
  · intro e hr
    obtain ⟨rest, hrest, _⟩ := loopBody_handles h tk t htk
    refine ⟨rest, ?_⟩
    rw [hrest]
    have : (readTask t tk.tRead).2.trace = t.trace ++ [Event.log e] := by
      show logIf (t.r.Read t.conn tk.tRead (List.replicate BufSize 0)).err t.trace = _
      rw [hr]; rfl
    rw [this]; simp

set_option maxRecDepth 1000000 in
/-- An instance of the write-error path: the writer carries the error of an earlier flush,
so `w.Write` fails. -/
theorem write_error_closes_witness :
    ∃ t1 : Task, ((oneTask stuckWriter).tick EchoHandler 0 readFirst).goroutine 0
        = some (Goroutine.exited t1) ∧
      t1.trace = (readTask stuckWriter 1).2.trace ++
        [Event.handle (readTask stuckWriter 1).1, Event.log (Error.net 3), Event.logClosed] ∧
      t1.conn.netConn.calls =
        ((readTask stuckWriter 1).2.w.Write (readTask stuckWriter 1).2.conn 2
          (EchoHandler (readTask stuckWriter 1).1).1).self.2.netConn.calls ++ [Call.close] ∧
      t1.conn.netConn.closed = true ∧
      ((oneTask stuckWriter).tick EchoHandler 0 readFirst).s.connections.get 0 = none ∧
      ∀ tk2 : Tick, ((oneTask stuckWriter).tick EchoHandler 0 readFirst).tick EchoHandler 0 tk2
        = (oneTask stuckWriter).tick EchoHandler 0 readFirst :=
  (write_error_closes EchoHandler (oneTask stuckWriter) 0 readFirst stuckWriter rfl rfl).1
    (Error.net 3) rfl (by decide!)

/-! ### The registry invariant -/

theorem count_logClosed_logs (l : List Event) (hl : ∀ e ∈ l, ∃ x, e = Event.log x) :
    l.count Event.logClosed = 0 := by
  rw [List.count_eq_zero]
  intro hmem
  obtain ⟨x, hx⟩ := hl _ hmem
  exact absurd hx (by simp)

/-- An iteration of the loop does not run the deferred function. -/
theorem loopBody_count (h : Handler) (tk : Tick) (t : Task) :
    (loopBody h tk t).task.trace.count Event.logClosed = t.trace.count Event.logClosed := by
  cases htk : tk.timerFirst with
  | true => rw [loopBody_timer h tk t htk]; rfl
  | false =>
    obtain ⟨rest, hrest, hlogs⟩ := loopBody_handles h tk t htk
    obtain ⟨l, hl, hl2⟩ := logIf_eq (t.r.Read t.conn tk.tRead (List.replicate BufSize 0)).err t.trace
    have h1 : (readTask t tk.tRead).2.trace = t.trace ++ l := hl
    rw [hrest, h1, List.count_append, List.count_append, List.count_cons,
      count_logClosed_logs l hl2, count_logClosed_logs rest hlogs]
    simp

theorem System_Inv_congr (sys sys1 : System) (hg : sys1.goroutines = sys.goroutines)
    (hf : sys1.fresh = sys.fresh) (hc : sys1.s.connections = sys.s.connections)
    (hi : sys.Inv) : sys1.Inv := by
  unfold System.Inv System.goroutine at *
  rw [hg, hf, hc]
  exact hi

theorem System_Inv_init (s : Server) (hs : s.connections = []) : (System.init s).Inv := by
  refine ⟨fun a _ => rfl, fun a => ?_, fun a t hg => ?_, fun a t hg => ?_⟩
  · show ConnMap.get s.connections a = _
    rw [hs]; rfl
  · exact absurd hg (by simp [System.goroutine, System.init])
  · exact absurd hg (by simp [System.goroutine, System.init])

theorem System_Inv_listen (sys : System) (e : Option Error) (hi : sys.Inv) :
    (ListenAndServe.listen sys e).Inv := by
  unfold ListenAndServe.listen
  split
  · dsimp only
    split
    · exact System_Inv_congr sys _ rfl rfl rfl hi
    · exact System_Inv_congr sys _ rfl rfl rfl hi
  · exact hi

theorem System_Inv_loop (sys : System) (acc : Except Error Sock) (now : Int) (hi : sys.Inv) :
    (ListenAndServe.loop sys acc now).Inv := by
  unfold ListenAndServe.loop
  split
  · split
    · exact System_Inv_congr sys _ rfl rfl rfl hi
    · split
      · exact hi
      · rename_i connRaw
        obtain ⟨h1, h2, h3, h4⟩ := hi
        have hfresh : sys.goroutine sys.fresh = none := h1 _ (le_refl _)
        refine ⟨fun a ha => ?_, fun a => ?_, fun a t hg => ?_, fun a t hg => ?_⟩
        · show List.lookup a (_ :: sys.goroutines) = none
          rw [lookup_cons_ite, if_neg (by show a ≠ sys.fresh; intro h0; rw [h0] at ha; exact absurd ha (by show ¬(sys.fresh + 1 ≤ sys.fresh); omega))]
          exact h1 a (by have : sys.fresh + 1 ≤ a := ha; omega)
        · show (sys.s.addConn sys.fresh).connections.get a
            = if Goroutine.isRunning (List.lookup a (_ :: sys.goroutines)) then some true else none
          rw [Server_addConn_get, lookup_cons_ite]
          by_cases ha : a = sys.fresh
          · simp [ha, Goroutine.isRunning]
          · simp only [ha, if_false]
            exact h2 a
        · have hg1 : List.lookup a (_ :: sys.goroutines) = some (Goroutine.running t) := hg
          rw [lookup_cons_ite] at hg1
          by_cases ha : a = sys.fresh
          · simp only [ha, if_true, Option.some.injEq, Goroutine.running.injEq] at hg1
            rw [← hg1]; rfl
          · simp only [ha, if_false] at hg1
            exact h3 a t hg1
        · have hg1 : List.lookup a (_ :: sys.goroutines) = some (Goroutine.exited t) := hg
          rw [lookup_cons_ite] at hg1
          by_cases ha : a = sys.fresh
          · simp [ha] at hg1
          · simp only [ha, if_false] at hg1
            exact h4 a t hg1
  · exact hi

theorem System_Inv_tick (h : Handler) (sys : System) (conn : Nat) (tk : Tick) (hi : sys.Inv) :
    (sys.tick h conn tk).Inv := by
  cases hg : sys.goroutine conn with
  | none =>
    rw [System_tick_idle h sys conn tk (by intro t; rw [hg]; simp)]
    exact hi
  | some g =>
    cases g with
    | exited t0 =>
      rw [System_tick_idle h sys conn tk (by intro t; rw [hg]; simp)]
      exact hi
    | running t =>
      obtain ⟨h1, h2, h3, h4⟩ := hi
      have hlt : conn < sys.fresh := by
        by_contra hge
        have := h1 conn (by omega)
        rw [hg] at this
        exact absurd this (by simp)
      have hcount := loopBody_count h tk t
      cases hl : loopBody h tk t with
      | next t1 =>
        rw [System_tick_next h sys conn tk t t1 hg hl]
        rw [hl] at hcount
        refine ⟨fun a ha => ?_, fun a => ?_, fun a t2 hg2 => ?_, fun a t2 hg2 => ?_⟩
        · show List.lookup a (_ :: sys.goroutines) = none
          have ha1 : sys.fresh ≤ a := ha
          rw [lookup_cons_ite, if_neg (by omega)]
          exact h1 a ha1
        · show sys.s.connections.get a
            = if Goroutine.isRunning (List.lookup a (_ :: sys.goroutines)) then some true else none
          rw [lookup_cons_ite]
          by_cases ha : a = conn
          · have h5 := h2 conn
            rw [hg] at h5
            simp only [ha, if_true]
            exact h5
          · simp only [ha, if_false]
            exact h2 a
        · have hg1 : List.lookup a (_ :: sys.goroutines) = some (Goroutine.running t2) := hg2
          rw [lookup_cons_ite] at hg1
          by_cases ha : a = conn
          · simp only [ha, if_true, Option.some.injEq, Goroutine.running.injEq] at hg1
            rw [← hg1]
            have h6 : t1.trace.count Event.logClosed = t.trace.count Event.logClosed := hcount
            rw [h6]
            exact h3 conn t hg
          · simp only [ha, if_false] at hg1
            exact h3 a t2 hg1
        · have hg1 : List.lookup a (_ :: sys.goroutines) = some (Goroutine.exited t2) := hg2
          rw [lookup_cons_ite] at hg1
          by_cases ha : a = conn
          · simp [ha] at hg1
          · simp only [ha, if_false] at hg1
            exact h4 a t2 hg1
      | ret t1 =>
        rw [System_tick_ret h sys conn tk t t1 hg hl]
        rw [hl] at hcount
        refine ⟨fun a ha => ?_, fun a => ?_, fun a t2 hg2 => ?_, fun a t2 hg2 => ?_⟩
        · show List.lookup a (_ :: sys.goroutines) = none
          have ha1 : sys.fresh ≤ a := ha
          rw [lookup_cons_ite, if_neg (by omega)]
          exact h1 a ha1
        · show (sys.s.closeConn conn t1.conn).1.connections.get a
            = if Goroutine.isRunning (List.lookup a (_ :: sys.goroutines)) then some true else none
          rw [Server_closeConn_get, lookup_cons_ite]
          by_cases ha : a = conn
          · simp [ha, Goroutine.isRunning]
          · simp only [ha, if_false]
            exact h2 a
        · have hg1 : List.lookup a (_ :: sys.goroutines) = some (Goroutine.running t2) := hg2
          rw [lookup_cons_ite] at hg1
          by_cases ha : a = conn
          · simp [ha] at hg1
          · simp only [ha, if_false] at hg1
            exact h3 a t2 hg1
        · have hg1 : List.lookup a (_ :: sys.goroutines) = some (Goroutine.exited t2) := hg2
          rw [lookup_cons_ite] at hg1
          by_cases ha : a = conn
          · simp only [ha, if_true, Option.some.injEq, Goroutine.exited.injEq] at hg1
            rw [← hg1]
            refine ⟨rfl, ?_⟩
            show (t1.trace ++ [Event.logClosed]).count Event.logClosed = 1
            have h6 : t1.trace.count Event.logClosed = t.trace.count Event.logClosed := hcount
            rw [List.count_append, h6, h3 conn t hg]
            rfl
          · simp only [ha, if_false] at hg1
            exact h4 a t2 hg1

theorem System_Inv_step (h : Handler) (sys : System) (ev : SysEvent) (hi : sys.Inv) :
    (sys.step h ev).Inv := by
  cases ev with
  | listen e => exact System_Inv_listen sys e hi
  | loop acc now => exact System_Inv_loop sys acc now hi
  | tick conn tk => exact System_Inv_tick h sys conn tk hi
  | shutdown => exact System_Inv_congr sys _ rfl rfl rfl hi
  | poll =>
    show (Shutdown.poll sys).Inv
    unfold Shutdown.poll
    split
    · exact System_Inv_congr sys _ rfl rfl rfl hi
    · exact hi

theorem System_Inv_run (h : Handler) (evs : List SysEvent) (sys : System) (hi : sys.Inv) :
    (sys.run h evs).Inv := by
  induction evs generalizing sys with
  | nil => exact hi
  | cons ev evs ih => exact ih _ (System_Inv_step h sys ev hi)

/-- The exit paths of the goroutine: an iteration returns exactly when the timer wins the
race, or the handler fails, or `w.Write` fails. -/
theorem loopBody_ret_iff (h : Handler) (tk : Tick) (t : Task) :
    (∃ t1, loopBody h tk t = Step.ret t1) ↔
      (tk.timerFirst = true ∨ (h (readTask t tk.tRead).1).2 ≠ none ∨
        ((readTask t tk.tRead).2.w.Write (readTask t tk.tRead).2.conn tk.tWrite
          (h (readTask t tk.tRead).1).1).err ≠ none) := by
  cases htk : tk.timerFirst with
  | true => exact ⟨fun _ => Or.inl rfl, fun _ => ⟨t, loopBody_timer h tk t htk⟩⟩
  | false =>
    cases he : (h (readTask t tk.tRead).1).2 with
    | some e =>
      exact ⟨fun _ => Or.inr (Or.inl (by simp)), fun _ => ⟨_, loopBody_handler_err h tk t e htk he⟩⟩
    | none =>
      cases hw : ((readTask t tk.tRead).2.w.Write (readTask t tk.tRead).2.conn tk.tWrite
          (h (readTask t tk.tRead).1).1).err with
      | some e =>
        exact ⟨fun _ => Or.inr (Or.inr (by simp)),
          fun _ => ⟨_, loopBody_write_err h tk t e htk he hw⟩⟩
      | none =>
        rw [loopBody_ok h tk t htk he hw]
        simp

/-- C9: `addConn(c)` makes `c` present and `closeConn(c)` makes `c` absent, and both leave
every other entry as it was.  An iteration of a goroutine returns exactly on one of the exit
paths (timer, handler error, write error), and the return runs `closeConn` on its connection.
In every state the system reaches from a new server, whatever the interleaving: the registry
holds exactly the addresses whose goroutine is running; a running goroutine is registered
and its deferred function has not run; a returned goroutine has run its deferred function
once, and its connection is closed and absent from the registry. -/
theorem registry_invariant (h : Handler) (addr : String) (idle lim : Int) (evs : List SysEvent)
    (s : Server) (c d : Nat) (x : Conn) :
    ((s.addConn c).connections.get d = if d = c then some true else s.connections.get d) ∧
    ((s.closeConn c x).1.connections.get d = if d = c then none else s.connections.get d) ∧
    (∀ (tk : Tick) (t : Task), (∃ t1, loopBody h tk t = Step.ret t1) ↔
      (tk.timerFirst = true ∨ (h (readTask t tk.tRead).1).2 ≠ none ∨
        ((readTask t tk.tRead).2.w.Write (readTask t tk.tRead).2.conn tk.tWrite
          (h (readTask t tk.tRead).1).1).err ≠ none)) ∧
    (∀ (a : Nat) (tk : Tick) (t t1 : Task),
      ((System.init (NewServer addr idle lim)).run h evs).goroutine a
        = some (Goroutine.running t) →
      loopBody h tk t = Step.ret t1 →
      (((System.init (NewServer addr idle lim)).run h evs).tick h a tk).s
        = (((System.init (NewServer addr idle lim)).run h evs).s.closeConn a t1.conn).1 ∧
      (((System.init (NewServer addr idle lim)).run h evs).tick h a tk).goroutine a
        = some (Goroutine.exited
            { t1 with
              conn := (((System.init (NewServer addr idle lim)).run h evs).s.closeConn a t1.conn).2
              trace := t1.trace ++ [Event.logClosed] })) ∧
    (∀ a : Nat, ((System.init (NewServer addr idle lim)).run h evs).s.connections.get a =
      if Goroutine.isRunning (((System.init (NewServer addr idle lim)).run h evs).goroutine a)
        then some true else none) ∧
    (∀ (a : Nat) (t : Task),
      ((System.init (NewServer addr idle lim)).run h evs).goroutine a
        = some (Goroutine.running t) →
      ((System.init (NewServer addr idle lim)).run h evs).s.connections.get a = some true ∧
      t.trace.count Event.logClosed = 0) ∧
    (∀ (a : Nat) (t : Task),
      ((System.init (NewServer addr idle lim)).run h evs).goroutine a
        = some (Goroutine.exited t) →
      ((System.init (NewServer addr idle lim)).run h evs).s.connections.get a = none ∧
      t.conn.netConn.closed = true ∧ t.trace.count Event.logClosed = 1) := by
  have hi := System_Inv_run h evs (System.init (NewServer addr idle lim))
    (System_Inv_init _ rfl)
  obtain ⟨_, h2, h3, h4⟩ := hi
  refine ⟨Server_addConn_get s c d, Server_closeConn_get s c x d, loopBody_ret_iff h, ?_, h2, ?_, ?_⟩
  · intro a tk t t1 hg hl
    refine ⟨?_, (System_tick_ret_spec h _ a tk t t1 hg hl).1⟩
    rw [System_tick_ret h _ a tk t t1 hg hl]
  · intro a t hg
    have h5 := h2 a
    rw [hg] at h5
    exact ⟨h5, h3 a t hg⟩
  · intro a t hg
    have h5 := h2 a
    rw [hg] at h5
    exact ⟨h5, (h4 a t hg).1, (h4 a t hg).2⟩

set_option maxRecDepth 1000000 in
/-- Witness of C9: after the shutdown run the goroutine at address 0 is running and
registered, and no other address is. -/
theorem registry_invariant_witness :
    ((System.init (NewServer ":9000" 5 1024)).run EchoHandler shutdownRun).s.connections.get 0
      = some true ∧
    ((System.init (NewServer ":9000" 5 1024)).run EchoHandler shutdownRun).s.connections.get 1
      = none :=
  have hr := (registry_invariant EchoHandler ":9000" 5 1024 shutdownRun
    (NewServer ":9000" 5 1024) 0 0 helloConn).2.2.2.2.1
  ⟨(hr 0).trans (by decide!), (hr 1).trans (by decide!)⟩

/-! ### The limit on what the handler receives -/

theorem lookup_mem {β : Type} (l : List (Nat × β)) (a : Nat) (g : β)
    (h : List.lookup a l = some g) : (a, g) ∈ l := by
  induction l with
  | nil => simp at h
  | cons e l ih =>
    obtain ⟨x, y⟩ := e
    rw [lookup_cons_ite] at h
    by_cases ha : a = x
    · simp only [ha, if_true, Option.some.injEq] at h
      rw [ha, h]
      exact List.mem_cons_self _ _
    · simp only [ha, if_false] at h
      exact List.mem_cons_of_mem _ (ih h)

/-- The reader and the limit after an iteration in which the read won the race. -/
theorem loopBody_r_conn (h : Handler) (tk : Tick) (t : Task) (htk : tk.timerFirst = false) :
    (loopBody h tk t).task.r = (readTask t tk.tRead).2.r ∧
    (loopBody h tk t).task.conn.bytesLimit = (readTask t tk.tRead).2.conn.bytesLimit := by
  cases he : (h (readTask t tk.tRead).1).2 with
  | some e =>
    rw [loopBody_handler_err h tk t e htk he]
    exact ⟨rfl, rfl⟩
  | none =>
    cases hw : ((readTask t tk.tRead).2.w.Write (readTask t tk.tRead).2.conn tk.tWrite
      (h (readTask t tk.tRead).1).1).err with
    | some e =>
      rw [loopBody_write_err h tk t e htk he hw]
      exact ⟨rfl, Writer_Write_bytesLimit _ _ _ _⟩
    | none =>
      rw [loopBody_ok h tk t htk he hw]
      refine ⟨rfl, ?_⟩
      show (Writer.Flush _ _ _).2.2.bytesLimit = _
      rw [Writer_Flush_bytesLimit]
      exact Writer_Write_bytesLimit _ _ _ _

/-- An iteration of the loop keeps the goroutine within the limit. -/
theorem loopBody_bounded (h : Handler) (tk : Tick) (t : Task) (lim : Int) (hlim : 0 ≤ lim)
    (hb : t.Bounded lim) : (loopBody h tk t).task.Bounded lim := by
  cases htk : tk.timerFirst with
  | true => rw [loopBody_timer h tk t htk]; exact hb
  | false =>
    obtain ⟨hb1, hb2, hb3⟩ := hb
    have hspec := Reader_Read_spec t.r t.conn tk.tRead (List.replicate BufSize 0)
    have hlimc : (readTask t tk.tRead).2.conn.bytesLimit = lim := hspec.2.2.1.trans hb1
    have hbound := hspec.2.2.2 (by rw [hb1]; exact hlim) (by rw [hb1]; exact hb2)
    rw [hb1] at hbound
    have hmsg := (readTask_spec t tk.tRead).2.2
    obtain ⟨hr, hc⟩ := loopBody_r_conn h tk t htk
    obtain ⟨rest, hrest, hlogs⟩ := loopBody_handles h tk t htk
    obtain ⟨l, hl, hl2⟩ := logIf_eq (t.r.Read t.conn tk.tRead (List.replicate BufSize 0)).err t.trace
    have htr : (readTask t tk.tRead).2.trace = t.trace ++ l := hl
    refine ⟨hc.trans hlimc, ?_, ?_⟩
    · rw [hr]
      exact hbound.2
    · intro msg hmem
      rw [hrest, htr] at hmem
      simp only [List.mem_append, List.mem_cons] at hmem
      rcases hmem with (hm | hm) | hm | hm
      · exact hb3 msg hm
      · obtain ⟨x, hx⟩ := hl2 _ hm
        exact absurd hx (by simp)
      · have hm1 : msg = (readTask t tk.tRead).1 := by simpa using hm
        rw [hm1]
        have : ((readTask t tk.tRead).1.length : Int)
            ≤ ((t.r.Read t.conn tk.tRead (List.replicate BufSize 0)).n : Int) := by
          exact_mod_cast hmsg
        exact le_trans this hbound.1
      · obtain ⟨x, hx⟩ := hlogs _ hm
        exact absurd hx (by simp)

theorem System_Bounded_step (h : Handler) (lim : Int) (hlim : 0 ≤ lim) (sys : System)
    (ev : SysEvent) (hb : sys.Bounded lim) : (sys.step h ev).Bounded lim := by
  obtain ⟨hb1, hb2⟩ := hb
  cases ev with
  | listen e =>
    show (ListenAndServe.listen sys e).Bounded lim
    unfold ListenAndServe.listen
    split
    · dsimp only
      split
      · exact ⟨hb1, hb2⟩
      · exact ⟨hb1, hb2⟩
    · exact ⟨hb1, hb2⟩
  | loop acc now =>
    show (ListenAndServe.loop sys acc now).Bounded lim
    unfold ListenAndServe.loop
    split
    · split
      · exact ⟨hb1, hb2⟩
      · split
        · exact ⟨hb1, hb2⟩
        · refine ⟨hb1, ?_⟩
          intro e he
          have he1 : e ∈ (sys.fresh, Goroutine.running (Task.start
            (NewConn _ sys.s.idleTimeout sys.s.bytesLimit now))) :: sys.goroutines := he
          rcases List.mem_cons.mp he1 with h0 | h0
          · rw [h0]
            refine ⟨hb1, ?_, ?_⟩
            · show (((0 : Nat) - 0 : Nat) : Int) ≤ lim
              simpa using hlim
            · intro msg hm
              exact absurd hm (by simp [Goroutine.task, Task.start])
          · exact hb2 e h0
    · exact ⟨hb1, hb2⟩
  | tick conn tk =>
    show (sys.tick h conn tk).Bounded lim
    cases hg : sys.goroutine conn with
    | none =>
      rw [System_tick_idle h sys conn tk (by intro t; rw [hg]; simp)]
      exact ⟨hb1, hb2⟩
    | some g =>
      cases g with
      | exited t0 =>
        rw [System_tick_idle h sys conn tk (by intro t; rw [hg]; simp)]
        exact ⟨hb1, hb2⟩
      | running t =>
        have ht : t.Bounded lim := hb2 _ (lookup_mem _ _ _ hg)
        have hstep := loopBody_bounded h tk t lim hlim ht
        cases hl : loopBody h tk t with
        | next t1 =>
          rw [System_tick_next h sys conn tk t t1 hg hl]
          rw [hl] at hstep
          refine ⟨hb1, ?_⟩
          intro e he
          have he1 : e ∈ (conn, Goroutine.running t1) :: sys.goroutines := he
          rcases List.mem_cons.mp he1 with h0 | h0
          · rw [h0]; exact hstep
          · exact hb2 e h0
        | ret t1 =>
          rw [System_tick_ret h sys conn tk t t1 hg hl]
          rw [hl] at hstep
          obtain ⟨hs1, hs2, hs3⟩ := hstep
          refine ⟨hb1, ?_⟩
          intro e he
          have he1 : e ∈ (conn, Goroutine.exited
            { t1 with conn := (sys.s.closeConn conn t1.conn).2
                      trace := t1.trace ++ [Event.logClosed] }) :: sys.goroutines := he
          rcases List.mem_cons.mp he1 with h0 | h0
          · rw [h0]
            refine ⟨hs1, hs2, ?_⟩
            intro msg hm
            have hm1 : Event.handle msg ∈ t1.trace ++ [Event.logClosed] := hm
            rw [List.mem_append] at hm1
            rcases hm1 with hm2 | hm2
            · exact hs3 msg hm2
            · exact absurd hm2 (by simp)
          · exact hb2 e h0
  | shutdown => exact ⟨hb1, hb2⟩
  | poll =>
    show (Shutdown.poll sys).Bounded lim
    unfold Shutdown.poll
    split
    · exact ⟨hb1, hb2⟩
    · exact ⟨hb1, hb2⟩

theorem System_Bounded_run (h : Handler) (lim : Int) (hlim : 0 ≤ lim) (evs : List SysEvent)
    (sys : System) (hb : sys.Bounded lim) : (sys.run h evs).Bounded lim := by
  induction evs generalizing sys with
  | nil => exact hb
  | cons ev evs ih => exact ih _ (System_Bounded_step h lim hlim sys ev hb)

/-- C2: for a server with a limit `bytesLimit` that is not negative, in every state the
system reaches, whatever the peers send and however the transport delivers it, every message
a connection goroutine has given to `Handler.Handle` has length at most `bytesLimit`. -/
theorem handled_message_le_bytesLimit (h : Handler) (addr : String) (idle lim : Int)
    (evs : List SysEvent) (hlim : 0 ≤ lim) (a : Nat) (g : Goroutine) (msg : List Byte)
    (hg : ((System.init (NewServer addr idle lim)).run h evs).goroutine a = some g)
    (hm : Event.handle msg ∈ g.task.trace) : (msg.length : Int) ≤ lim := by
  have hb := System_Bounded_run h lim hlim evs (System.init (NewServer addr idle lim))
    ⟨rfl, fun e he => absurd he (by simp [System.init])⟩
  exact (hb.2 _ (lookup_mem _ _ _ hg)).2.2 msg hm

set_option maxRecDepth 1000000 in
/-- Witness of C2: the peer sends 2000 bytes in one burst to a server with limit 1024; the
handler is called with the first 1024 of them. -/
theorem handled_message_le_bytesLimit_witness :
    Event.handle (List.replicate 1024 65) ∈
      (loopBody EchoHandler readFirst (Task.start (NewConn (peerSent burst) 5 1024 0))).task.trace ∧
    (((List.replicate 1024 65 : List Byte).length : Int) ≤ 1024) :=
  have hm : Event.handle (List.replicate 1024 65) ∈
      (Goroutine.running (loopBody EchoHandler readFirst
        (Task.start (NewConn (peerSent burst) 5 1024 0))).task).task.trace := by decide!
  ⟨hm, handled_message_le_bytesLimit EchoHandler ":9000" 5 1024 burstRun (by decide) 0
    (Goroutine.running (loopBody EchoHandler readFirst
      (Task.start (NewConn (peerSent burst) 5 1024 0))).task)
    (List.replicate 1024 65) (by decide!) hm⟩

/-! ### The result of ListenAndServe -/

/-- Once `net.Listen` has succeeded, the accept loop that sees the stop flag returns the
named result as `net.Listen` left it: `nil`. -/
theorem ListenAndServe_loop_stop (sys : System) (acc : Except Error Sock) (now : Int)
    (err : Option Error) (hpc : sys.pc = Pc.serving err) (hstop : sys.s.stop = true) :
    (ListenAndServe.loop sys acc now).pc = Pc.returned err := by
  simp only [ListenAndServe.loop, hpc, hstop, if_true]

set_option maxRecDepth 1000000 in
/-- C3, the code at the failing input: the server binds, accepts a connection, `Shutdown`
sets the stop flag, the accept loop breaks, and `ListenAndServe` returns `nil`. -/
theorem ListenAndServe_returns_nil :
    ((System.init (NewServer ":9000" 5 1024)).run EchoHandler shutdownRun).pc
      = Pc.returned none := by
  decide!

end TcpServ
